import Mathlib

/-!
Verification of the OpenOS Interrupt & Memory Management Core.

Shallow embedding of the C sources:
  - `src/memory/pmm.c`     (bitmap physical frame allocator)
  - `src/Kernel2.0/vmm.c`  (two-level x86 paging)
  - `src/arch/x86/idt.c`   (IDT gate installer)
  - `src/Kernel2.0/pic.c`  (8259 PIC driver)

Machine integers are modelled as `Nat` with explicit reductions modulo
`2^32` / `2^64` at every C operation where overflow or truncation can occur.
The PMM bitmap `uint8_t pmm_bitmap[PMM_BITMAP_SIZE]` is modelled bit-wise:
`bitmap p` is bit `p % 8` of byte `p / 8`; the C guard `byte < PMM_BITMAP_SIZE`
becomes the guard `p / 8 < PMM_BITMAP_SIZE`.
-/

namespace OpenOS

/-- `2^32`, the modulus of C `uint32_t` arithmetic. -/
def U32 : Nat := 4294967296

/-- `2^64`, the modulus of C `uint64_t` arithmetic. -/
def U64 : Nat := 18446744073709551616

/-- C `uint32_t` subtraction `a - b` (wraps modulo `2^32`). -/
def u32_sub (a b : Nat) : Nat := (a % U32 + (U32 - b % U32)) % U32

/-! ## Physical Memory Manager (`src/memory/pmm.c`, `src/memory/pmm.h`) -/

/-- `#define PMM_PAGE_SIZE 4096` -/
def PMM_PAGE_SIZE : Nat := 4096

/-- `#define PMM_BITMAP_SIZE (1024 * 1024)` (bytes; supports up to 4GB RAM) -/
def PMM_BITMAP_SIZE : Nat := 1024 * 1024

/-- `#define PMM_LOW_MEMORY 0x100000` (1MB, reserved for BIOS/VGA) -/
def PMM_LOW_MEMORY : Nat := 0x100000

/-- `#define MULTIBOOT_MEMORY_AVAILABLE 1` (include/multiboot.h) -/
def MULTIBOOT_MEMORY_AVAILABLE : Nat := 1

/-- One `struct multiboot_mmap_entry` (include/multiboot.h). The `size`
field only drives the C pointer-stride iteration, which the `List`
representation replaces; `addr`/`len` are `uint64_t`, `typ` models the C
field `type` (`uint32_t`). -/
structure multiboot_mmap_entry where
  addr : Nat
  len : Nat
  typ : Nat

/-- The part of `struct multiboot_info` that `pmm_init` reads: `flags`,
`mem_lower`, `mem_upper` (uint32) and the memory map designated by
`mmap_addr`/`mmap_length`, represented as the list of entries it holds. -/
structure multiboot_info where
  flags : Nat
  mem_lower : Nat
  mem_upper : Nat
  mmap : List multiboot_mmap_entry

/-- The PMM's mutable globals: `pmm_bitmap` (bit-wise), `total_pages`,
`used_pages` (uint32) and `max_physical_address` (uint64). -/
structure PMMState where
  bitmap : Nat → Bool
  total_pages : Nat
  used_pages : Nat
  max_physical_address : Nat

/-- `bitmap_set(page)`: sets bit `page % 8` of byte `page / 8` if the byte
index is inside the array, else does nothing. -/
def bitmap_set (page : Nat) (s : PMMState) : PMMState :=
  if page / 8 < PMM_BITMAP_SIZE then
    { s with bitmap := fun q => if q = page then true else s.bitmap q }
  else s

/-- `bitmap_clear(page)`: clears bit `page % 8` of byte `page / 8` if the
byte index is inside the array, else does nothing. -/
def bitmap_clear (page : Nat) (s : PMMState) : PMMState :=
  if page / 8 < PMM_BITMAP_SIZE then
    { s with bitmap := fun q => if q = page then false else s.bitmap q }
  else s

/-- `bitmap_test(page)`: the bit if in range, `true` ("assume used") if out
of range. -/
def bitmap_test (page : Nat) (s : PMMState) : Bool :=
  if page / 8 < PMM_BITMAP_SIZE then s.bitmap page else true

/-- Body of the loop `for (i = start_page; i < total_pages; i++)
bitmap_clear(i);` of `pmm_init`'s no-memory-map branch. The first argument
is structural-recursion fuel bounding the iteration count; the loop's exit
condition is still checked in the body, so with enough fuel the function is
exactly the C loop. -/
def pmm_clear_loop_aux : Nat → PMMState → Nat → Nat → PMMState
  | 0, s, _, _ => s
  | fuel + 1, s, i, e =>
    if i < e then pmm_clear_loop_aux fuel (bitmap_clear i s) (i + 1) e else s

/-- The loop `for (i = start_page; i < total_pages; i++) bitmap_clear(i);`,
run with exactly enough fuel. -/
def pmm_clear_loop (s : PMMState) (i e : Nat) : PMMState :=
  pmm_clear_loop_aux (e - i) s i e

/-- Body of the loop `for (page = start_page; page < end_page && page <
total_pages; page++) bitmap_clear(page);` of `pmm_init`'s second pass, with
structural-recursion fuel bounding the iteration count (the loop's exit
condition is still checked in the body). -/
def pmm_clear_region_loop_aux : Nat → PMMState → Nat → Nat → PMMState
  | 0, s, _, _ => s
  | fuel + 1, s, page, e =>
    if page < e ∧ page < s.total_pages then
      pmm_clear_region_loop_aux fuel (bitmap_clear page s) (page + 1) e
    else s

/-- The second-pass clear loop, run with exactly enough fuel. -/
def pmm_clear_region_loop (s : PMMState) (page e : Nat) : PMMState :=
  pmm_clear_region_loop_aux (e - page) s page e

/-- `pmm_init`'s first pass: fold over the memory map computing
`max_physical_address` (`region_end = addr + len` in uint64). -/
def pmm_first_pass (mmap : List multiboot_mmap_entry) : Nat :=
  mmap.foldl
    (fun acc e =>
      if e.typ % U32 = MULTIBOOT_MEMORY_AVAILABLE ∧
          acc < (e.addr % U64 + e.len % U64) % U64 then
        (e.addr % U64 + e.len % U64) % U64
      else acc) 0

/-- `pmm_init`'s second pass: for each entry of type AVAILABLE whose start
address is at least `PMM_LOW_MEMORY`, clear the frames from
`(uint32_t)(addr / PMM_PAGE_SIZE)` up to `(uint32_t)((addr+len) / PMM_PAGE_SIZE)`
(bounded by `total_pages`). -/
def pmm_second_pass (s : PMMState) (mmap : List multiboot_mmap_entry) : PMMState :=
  mmap.foldl
    (fun t e =>
      if e.typ % U32 = MULTIBOOT_MEMORY_AVAILABLE ∧ PMM_LOW_MEMORY ≤ e.addr % U64 then
        pmm_clear_region_loop t (e.addr % U64 / PMM_PAGE_SIZE % U32)
          ((e.addr % U64 + e.len % U64) % U64 / PMM_PAGE_SIZE % U32)
      else t) s

/-- The loop `for (i = 0; i < total_pages; i++) if (bitmap_test(i)) used_pages++;`
counting used pages at the end of `pmm_init`'s memory-map branch. -/
def pmm_count_used (s : PMMState) : Nat :=
  (List.range s.total_pages).foldl
    (fun acc i => if bitmap_test i s then (acc + 1) % U32 else acc) 0

/-- `pmm_init(mboot)`: mark every bitmap bit used, then either (no memory
map, `flags` bit 6 clear) free everything above 1MB up to the page count
derived from `mem_lower + mem_upper`, or (memory map present) run the two
passes over the map and count the used pages. -/
def pmm_init (mboot : multiboot_info) : PMMState :=
  let s0 : PMMState :=
    { bitmap := fun _ => true, total_pages := 0, used_pages := 0
      max_physical_address := 0 }
  if mboot.flags &&& 0x40 = 0 then
    let mem_kb := (mboot.mem_lower % U32 + mboot.mem_upper % U32) % U32
    let total := mem_kb * 1024 % U32 / PMM_PAGE_SIZE
    let start_page := PMM_LOW_MEMORY / PMM_PAGE_SIZE
    let s1 := { s0 with total_pages := total
                        max_physical_address := mem_kb * 1024 % U32 }
    let s2 := pmm_clear_loop s1 start_page total
    { s2 with used_pages := start_page }
  else
    let maxp := pmm_first_pass mboot.mmap
    let total0 := maxp / PMM_PAGE_SIZE % U32
    let total := if PMM_BITMAP_SIZE * 8 < total0 then PMM_BITMAP_SIZE * 8 else total0
    let s1 := { s0 with total_pages := total, max_physical_address := maxp }
    let s2 := pmm_second_pass s1 mboot.mmap
    { s2 with used_pages := pmm_count_used s2 }

/-- Body of the search loop of `pmm_alloc_page`: first page index at or
after `page` and below `total_pages` whose bitmap bit is clear. The first
argument is structural-recursion fuel bounding the iteration count; the
loop's exit condition `page < total_pages` is still checked in the body. -/
def pmm_find_free_aux (s : PMMState) : Nat → Nat → Option Nat
  | 0, _ => none
  | fuel + 1, page =>
    if page < s.total_pages then
      if bitmap_test page s = false then some page
      else pmm_find_free_aux s fuel (page + 1)
    else none

/-- The search loop of `pmm_alloc_page`, run with exactly enough fuel. -/
def pmm_find_free (s : PMMState) (page : Nat) : Option Nat :=
  pmm_find_free_aux s (s.total_pages - page) page

/-- `pmm_alloc_page()`: first-fit search; on success set the bit, increment
`used_pages` and return `(void *)(page * PMM_PAGE_SIZE)` (a uint32 product);
on exhaustion return NULL (`none`) and leave the state unchanged. -/
def pmm_alloc_page (s : PMMState) : Option Nat × PMMState :=
  match pmm_find_free s 0 with
  | some page =>
      (some (page * PMM_PAGE_SIZE % U32),
        { bitmap_set page s with used_pages := (s.used_pages + 1) % U32 })
  | none => (none, s)

/-- `pmm_free_page(page)`: compute the frame index from the (uint32-cast)
address; if in range and currently used, clear the bit and decrement
`used_pages`; otherwise do nothing. -/
def pmm_free_page (page : Nat) (s : PMMState) : PMMState :=
  if page % U32 / PMM_PAGE_SIZE < s.total_pages ∧
      bitmap_test (page % U32 / PMM_PAGE_SIZE) s = true then
    { bitmap_clear (page % U32 / PMM_PAGE_SIZE) s with
        used_pages := (s.used_pages + (U32 - 1)) % U32 }
  else s

/-- `pmm_mark_used(page)`: if in range and currently free, set the bit and
increment `used_pages`; otherwise do nothing. -/
def pmm_mark_used (page : Nat) (s : PMMState) : PMMState :=
  if page % U32 / PMM_PAGE_SIZE < s.total_pages ∧
      bitmap_test (page % U32 / PMM_PAGE_SIZE) s = false then
    { bitmap_set (page % U32 / PMM_PAGE_SIZE) s with
        used_pages := (s.used_pages + 1) % U32 }
  else s

/-- `pmm_mark_free(page)`: delegates to `pmm_free_page`. -/
def pmm_mark_free (page : Nat) (s : PMMState) : PMMState :=
  pmm_free_page page s

/-- `pmm_is_page_free(page)`. -/
def pmm_is_page_free (page : Nat) (s : PMMState) : Bool :=
  if s.total_pages ≤ page % U32 / PMM_PAGE_SIZE then false
  else !(bitmap_test (page % U32 / PMM_PAGE_SIZE) s)

/-- `struct pmm_stats`. -/
structure pmm_stats where
  total_pages : Nat
  used_pages : Nat
  free_pages : Nat
  total_memory_kb : Nat
  used_memory_kb : Nat
  free_memory_kb : Nat

/-- `pmm_get_stats`: report the counters; `free_pages` and the `_kb` fields
are computed with uint32 arithmetic. -/
def pmm_get_stats (s : PMMState) : pmm_stats :=
  let total_kb := s.total_pages * PMM_PAGE_SIZE % U32 / 1024
  let used_kb := s.used_pages * PMM_PAGE_SIZE % U32 / 1024
  { total_pages := s.total_pages
    used_pages := s.used_pages
    free_pages := u32_sub s.total_pages s.used_pages
    total_memory_kb := total_kb
    used_memory_kb := used_kb
    free_memory_kb := u32_sub total_kb used_kb }

/-- A call in a sequence of PMM operations: `pmm_alloc_page()` or
`pmm_free_page(addr)`. -/
inductive PMMOp where
  | alloc : PMMOp
  | free : Nat → PMMOp

/-- Effect of one call on the PMM state. -/
def pmm_apply_op (s : PMMState) (op : PMMOp) : PMMState :=
  match op with
  | .alloc => (pmm_alloc_page s).2
  | .free a => pmm_free_page a s

/-- Effect of a sequence of calls on the PMM state. -/
def pmm_run (s : PMMState) (ops : List PMMOp) : PMMState :=
  ops.foldl pmm_apply_op s

/-- Number of used frames among the first `n` frame indices (specification
measure; written as a plain recursion so it both evaluates and inducts). -/
def count_used_below (s : PMMState) : Nat → Nat
  | 0 => 0
  | n + 1 => count_used_below s n + (if bitmap_test n s then 1 else 0)

/-- Number of used frames among all `total_pages` frames. -/
def pmm_used_count (s : PMMState) : Nat :=
  count_used_below s s.total_pages

/-- The PMM's accounting invariant: `used_pages` is exactly the number of
used bits below `total_pages`, and `total_pages` fits in the bitmap. -/
def PMMInv (s : PMMState) : Prop :=
  s.used_pages = pmm_used_count s ∧ s.total_pages ≤ PMM_BITMAP_SIZE * 8

/-! ### Concrete PMM fixtures -/

/-- A PMM state whose bitmap is exhausted: 2 frames, both used. -/
def pmm_exhausted_state : PMMState :=
  { bitmap := fun _ => true, total_pages := 2, used_pages := 2
    max_physical_address := 8192 }

/-- A PMM state with 4 frames, all free, none used. -/
def pmm_small_free_state : PMMState :=
  { bitmap := fun _ => false, total_pages := 4, used_pages := 0
    max_physical_address := 16384 }

/-- A multiboot info without a memory map (`flags` bit 6 clear) reporting
only 640 KiB of memory — less than the 1 MiB low-memory reservation. -/
def pmm_no_mmap_info : multiboot_info :=
  { flags := 0, mem_lower := 640, mem_upper := 0, mmap := [] }

/-- The spec's "memory map with a hole" scenario: `[0x100000,0x500000)`
available, `[0x500000,0x600000)` reserved, `[0x600000,0xA00000)` available. -/
def mboot_hole_example : multiboot_info :=
  { flags := 0x40, mem_lower := 640, mem_upper := 0
    mmap := [{ addr := 0x100000, len := 0x400000, typ := 1 },
             { addr := 0x500000, len := 0x100000, typ := 2 },
             { addr := 0x600000, len := 0x400000, typ := 1 }] }

/-- A memory map whose single available region starts below 1 MiB but
extends above it: `[0, 0x200000)` available. -/
def mboot_low_avail : multiboot_info :=
  { flags := 0x40, mem_lower := 640, mem_upper := 1024
    mmap := [{ addr := 0, len := 0x200000, typ := 1 }] }

/-! ## Virtual Memory Manager (`src/Kernel2.0/vmm.c`, `src/Kernel2.0/vmm.h`)

The VMM functions take an explicit page directory; the C fallback
`if (dir == NULL) dir = current_directory;` selects the global current
directory, which every claim here passes explicitly, so the NULL case is
not modelled. TLB invalidation (`invlpg`) and the CR3 load are effects on
hardware translation caches, invisible to the page-table contents the
claims are about. A `struct page_table` living in its allocated physical
frame is represented by its value, stored in the directory's `tables`
side array (the code relies on identity mapping to use the physical
address as the pointer). -/

/-- `#define PAGE_SIZE 4096` -/
def PAGE_SIZE : Nat := 4096

/-- `#define PTE_PRESENT (1 << 0)` -/
def PTE_PRESENT : Nat := 1

/-- `#define PTE_WRITABLE (1 << 1)` -/
def PTE_WRITABLE : Nat := 2

/-- `#define PD_INDEX(addr) (((uint32_t)(addr) >> 22) & 0x3FF)` -/
def PD_INDEX (addr : Nat) : Nat := ((addr % U32) >>> 22) &&& 0x3FF

/-- `#define PT_INDEX(addr) (((uint32_t)(addr) >> 12) & 0x3FF)` -/
def PT_INDEX (addr : Nat) : Nat := ((addr % U32) >>> 12) &&& 0x3FF

/-- `#define PAGE_ALIGN(addr) ((uint32_t)(addr) & 0xFFFFF000)` -/
def PAGE_ALIGN (addr : Nat) : Nat := addr % U32 &&& 0xFFFFF000

/-- `struct page_table`: 1024 uint32 entries. -/
structure page_table where
  entries : Nat → Nat

/-- `struct page_directory`: 1024 uint32 entries plus the side array of
page-table pointers. -/
structure page_directory where
  entries : Nat → Nat
  tables : Nat → Option page_table

/-- `get_page_table(dir, virt, create)`: return the existing table for
`virt`'s directory slot, or (when `create`) allocate one from the PMM, zero
it, install it in both the side array and the directory entry
(present+writable), and return it. Returns the table together with the
updated directory and PMM state. -/
def get_page_table (dir : page_directory) (virt : Nat) (create : Bool)
    (pmm : PMMState) : Option page_table × page_directory × PMMState :=
  match dir.tables (PD_INDEX virt) with
  | some pt => (some pt, dir, pmm)
  | none =>
    if create then
      match pmm_alloc_page pmm with
      | (some phys, pmm') =>
        let pt : page_table := { entries := fun _ => 0 }
        let dir' : page_directory :=
          { entries := fun i =>
              if i = PD_INDEX virt then
                (phys &&& 0xFFFFF000) ||| (PTE_PRESENT ||| PTE_WRITABLE)
              else dir.entries i
            tables := fun i =>
              if i = PD_INDEX virt then some pt else dir.tables i }
        (some pt, dir', pmm')
      | (none, pmm') => (none, dir, pmm')
    else (none, dir, pmm)

/-- `vmm_map_page(dir, virt, phys, flags)`: get or create the page table,
then write the leaf entry `(phys & 0xFFFFF000) | (flags & 0xFFF)`.
Returns 1 (`true`) on success, 0 (`false`) if table creation failed. -/
def vmm_map_page (dir : page_directory) (virt phys flags : Nat)
    (pmm : PMMState) : Bool × page_directory × PMMState :=
  match get_page_table dir virt true pmm with
  | (none, dir', pmm') => (false, dir', pmm')
  | (some pt, dir', pmm') =>
    let pt' : page_table :=
      { entries := fun i =>
          if i = PT_INDEX virt then (phys &&& 0xFFFFF000) ||| (flags &&& 0xFFF)
          else pt.entries i }
    (true,
      { dir' with tables := fun i =>
          if i = PD_INDEX virt then some pt' else dir'.tables i },
      pmm')

/-- `vmm_unmap_page(dir, virt)`: clear the leaf entry if the table exists. -/
def vmm_unmap_page (dir : page_directory) (virt : Nat) : page_directory :=
  match dir.tables (PD_INDEX virt) with
  | none => dir
  | some pt =>
    let pt' : page_table :=
      { entries := fun i => if i = PT_INDEX virt then 0 else pt.entries i }
    { dir with tables := fun i =>
        if i = PD_INDEX virt then some pt' else dir.tables i }

/-- `vmm_get_physical(dir, virt)`: 0 if no table or entry not present, else
`(pte & 0xFFFFF000) | ((uint32_t)virt & 0xFFF)`. -/
def vmm_get_physical (dir : page_directory) (virt : Nat) : Nat :=
  match dir.tables (PD_INDEX virt) with
  | none => 0
  | some pt =>
    if pt.entries (PT_INDEX virt) &&& PTE_PRESENT = 0 then 0
    else (pt.entries (PT_INDEX virt) &&& 0xFFFFF000) ||| (virt % U32 &&& 0xFFF)

/-- Body of the loop `while (virt < end) { vmm_map_page(dir, virt, virt,
flags); virt += PAGE_SIZE; }` of `vmm_identity_map_region`, with
structural-recursion fuel bounding the iteration count (the loop's exit
condition is still checked in the body). -/
def vmm_id_map_loop_aux : Nat → page_directory → PMMState → Nat → Nat → Nat →
    page_directory × PMMState
  | 0, dir, pmm, _, _, _ => (dir, pmm)
  | fuel + 1, dir, pmm, virt, endv, flags =>
    if virt < endv then
      let r := vmm_map_page dir virt virt flags pmm
      vmm_id_map_loop_aux fuel r.2.1 r.2.2 (virt + PAGE_SIZE) endv flags
    else (dir, pmm)

/-- `vmm_identity_map_region(dir, start, size, flags)`: page-align the
bounds (uint32 arithmetic) and map each page onto itself. -/
def vmm_identity_map_region (dir : page_directory) (start size flags : Nat)
    (pmm : PMMState) : page_directory × PMMState :=
  let virt := PAGE_ALIGN start
  let endv := ((start % U32 + size % U32 + PAGE_SIZE - 1) % U32) &&& 0xFFFFF000
  vmm_id_map_loop_aux (endv - virt) dir pmm virt endv flags

/-- `vmm_init()`: allocate the kernel page directory from the PMM (return
`none` if that fails, leaving no current directory), zero it, identity-map
the first 4MB with present+writable, and record it as the current
directory. The returned directory is `current_directory`; the CR3 load is
a hardware effect. -/
def vmm_init (pmm : PMMState) : Option (page_directory × PMMState) :=
  match pmm_alloc_page pmm with
  | (none, _) => none
  | (some _, pmm1) =>
    let dir : page_directory := { entries := fun _ => 0, tables := fun _ => none }
    some (vmm_identity_map_region dir 0 0x400000 (PTE_PRESENT ||| PTE_WRITABLE) pmm1)

/-- Number of free frames of a PMM state (specification measure). -/
def count_free_below (s : PMMState) : Nat → Nat
  | 0 => 0
  | n + 1 => count_free_below s n + (if bitmap_test n s then 0 else 1)

/-- Free-frame count among all `total_pages` frames. -/
def pmm_free_count (s : PMMState) : Nat :=
  count_free_below s s.total_pages

/-- An empty page directory (all entries zero, no tables), as produced by
the clearing loops of `vmm_init`/`vmm_create_directory`. -/
def vmm_empty_dir : page_directory :=
  { entries := fun _ => 0, tables := fun _ => none }

/-- A directory whose slot 0 already holds a zeroed page table. -/
def vmm_dir_with_table0 : page_directory :=
  { entries := fun _ => 0
    tables := fun i => if i = 0 then some { entries := fun _ => 0 } else none }

/-! ## IDT (`src/arch/x86/idt.c`, `src/Kernel2.0/idt.h`) -/

/-- `struct idt_entry`: split 16-bit offset halves, 16-bit selector,
reserved zero byte, type/attribute byte. -/
structure idt_entry where
  offset_low : Nat
  selector : Nat
  zero : Nat
  type_attr : Nat
  offset_high : Nat

/-- The IDT array, indexed by vector number. -/
def idt_table := Nat → idt_entry

/-- `idt_set_gate(num, handler, selector, flags)`: store the split handler
address, the selector and the flags into entry `num`. The parameters are
uint8/uint32/uint16/uint8, reduced accordingly. -/
def idt_set_gate (idt : idt_table) (num handler selector flags : Nat) : idt_table :=
  fun i =>
    if i = num % 256 then
      { offset_low := handler % U32 &&& 0xFFFF
        selector := selector % 65536
        zero := 0
        type_attr := flags % 256
        offset_high := ((handler % U32) >>> 16) &&& 0xFFFF }
    else idt i

/-- The all-zero IDT produced by the clearing loop of `idt_init`. -/
def idt_cleared : idt_table :=
  fun _ =>
    { offset_low := 0, selector := 0, zero := 0, type_attr := 0, offset_high := 0 }

/-! ## PIC (`src/Kernel2.0/pic.c`, `src/Kernel2.0/pic.h`)

Port output is modelled as a trace of `(port, value)` writes in program
order; `outb(port, value)` appends to the trace. -/

/-- `#define PIC1_CMD 0x20` (master command port) -/
def PIC1_CMD : Nat := 0x20

/-- `#define PIC2_CMD 0xA0` (slave command port) -/
def PIC2_CMD : Nat := 0xA0

/-- `#define PIC_EOI 0x20` (end-of-interrupt command) -/
def PIC_EOI : Nat := 0x20

/-- `outb(port, value)`: append one I/O write to the trace. -/
def outb (port value : Nat) (trace : List (Nat × Nat)) : List (Nat × Nat) :=
  trace ++ [(port, value)]

/-- `pic_send_eoi(irq)` (`irq` is uint8): if `irq >= 8` write EOI to the
slave command port first, then always write EOI to the master command
port. -/
def pic_send_eoi (irq : Nat) (trace : List (Nat × Nat)) : List (Nat × Nat) :=
  outb PIC1_CMD PIC_EOI
    (if 8 ≤ irq % 256 then outb PIC2_CMD PIC_EOI trace else trace)

/-! ## Basic bitmap lemmas -/

theorem bitmap_set_total_pages (p : Nat) (s : PMMState) :
    (bitmap_set p s).total_pages = s.total_pages := by
  unfold bitmap_set; split <;> rfl

theorem bitmap_clear_total_pages (p : Nat) (s : PMMState) :
    (bitmap_clear p s).total_pages = s.total_pages := by
  unfold bitmap_clear; split <;> rfl

theorem bitmap_test_used_irrel (q u : Nat) (s : PMMState) :
    bitmap_test q { s with used_pages := u } = bitmap_test q s := rfl

theorem total_pages_used_irrel (u : Nat) (s : PMMState) :
    ({ s with used_pages := u } : PMMState).total_pages = s.total_pages := rfl

theorem bitmap_test_false_in_range {p : Nat} {s : PMMState}
    (h : bitmap_test p s = false) : p / 8 < PMM_BITMAP_SIZE := by
  by_contra hc
  simp [bitmap_test, hc] at h

theorem bitmap_test_set_self {p : Nat} (s : PMMState) (h : p / 8 < PMM_BITMAP_SIZE) :
    bitmap_test p (bitmap_set p s) = true := by
  simp [bitmap_set, bitmap_test, h]

theorem bitmap_test_set_ne {q p : Nat} (s : PMMState) (h : q ≠ p) :
    bitmap_test q (bitmap_set p s) = bitmap_test q s := by
  unfold bitmap_set bitmap_test
  split
  · split <;> simp [h]
  · rfl

theorem bitmap_test_clear_self {p : Nat} (s : PMMState) (h : p / 8 < PMM_BITMAP_SIZE) :
    bitmap_test p (bitmap_clear p s) = false := by
  simp [bitmap_clear, bitmap_test, h]

theorem bitmap_test_clear_ne {q p : Nat} (s : PMMState) (h : q ≠ p) :
    bitmap_test q (bitmap_clear p s) = bitmap_test q s := by
  unfold bitmap_clear bitmap_test
  split
  · split <;> simp [h]
  · rfl

/-! ## First-fit search lemmas -/

theorem pmm_find_free_aux_spec (s : PMMState) :
    ∀ fuel page p, pmm_find_free_aux s fuel page = some p →
      page ≤ p ∧ p < s.total_pages ∧ bitmap_test p s = false ∧
      ∀ q, page ≤ q → q < p → bitmap_test q s = true := by
  intro fuel
  induction fuel with
  | zero => intro page p h; simp [pmm_find_free_aux] at h
  | succ fuel ih =>
    intro page p h
    rw [pmm_find_free_aux] at h
    by_cases hi : page < s.total_pages
    · rw [if_pos hi] at h
      by_cases ht : bitmap_test page s = false
      · rw [if_pos ht] at h
        obtain rfl : page = p := Option.some.inj h
        exact ⟨Nat.le_refl _, hi, ht, fun q hq hq2 => absurd hq (by omega)⟩
      · rw [if_neg ht] at h
        obtain ⟨h1, h2, h3, h4⟩ := ih (page + 1) p h
        refine ⟨by omega, h2, h3, fun q hq hq2 => ?_⟩
        rcases Nat.eq_or_lt_of_le hq with heq | hlt
        · rw [← heq]
          cases hb : bitmap_test page s
          · exact absurd hb ht
          · rfl
        · exact h4 q (by omega) hq2
    · rw [if_neg hi] at h
      exact absurd h (by simp)

theorem pmm_find_free_aux_eq_none (s : PMMState) :
    ∀ fuel page, (∀ p, page ≤ p → p < s.total_pages → bitmap_test p s = true) →
      pmm_find_free_aux s fuel page = none := by
  intro fuel
  induction fuel with
  | zero => intro page _; rfl
  | succ fuel ih =>
    intro page hall
    rw [pmm_find_free_aux]
    by_cases hi : page < s.total_pages
    · rw [if_pos hi]
      have ht : bitmap_test page s = true := hall page (Nat.le_refl _) hi
      rw [if_neg (by simp [ht])]
      exact ih (page + 1) (fun p hp1 hp2 => hall p (by omega) hp2)
    · rw [if_neg hi]

theorem pmm_find_free_aux_first (s : PMMState) :
    ∀ fuel page p, p - page < fuel → page ≤ p → p < s.total_pages →
      bitmap_test p s = false →
      (∀ q, page ≤ q → q < p → bitmap_test q s = true) →
      pmm_find_free_aux s fuel page = some p := by
  intro fuel
  induction fuel with
  | zero => intro page p h; omega
  | succ fuel ih =>
    intro page p hfuel hip hp ht hall
    by_cases he : page = p
    · subst he
      rw [pmm_find_free_aux, if_pos hp, if_pos ht]
    · have hi : page < s.total_pages := by omega
      have hti : bitmap_test page s = true := hall page (Nat.le_refl _) (by omega)
      rw [pmm_find_free_aux, if_pos hi, if_neg (by simp [hti])]
      exact ih (page + 1) p (by omega) (by omega) hp ht
        (fun q h1 h2 => hall q (by omega) h2)

theorem pmm_find_free_aux_congr (s s' : PMMState)
    (htot : s.total_pages = s'.total_pages)
    (hb : ∀ q, bitmap_test q s = bitmap_test q s') :
    ∀ fuel page, pmm_find_free_aux s fuel page = pmm_find_free_aux s' fuel page := by
  intro fuel
  induction fuel with
  | zero => intro page; rfl
  | succ fuel ih =>
    intro page
    rw [pmm_find_free_aux, pmm_find_free_aux, ← htot, hb page]
    by_cases hi : page < s.total_pages
    · rw [if_pos hi, if_pos hi]
      by_cases ht : bitmap_test page s' = false
      · rw [if_pos ht, if_pos ht]
      · rw [if_neg ht, if_neg ht, ih]
    · rw [if_neg hi, if_neg hi]

theorem pmm_find_free_spec {s : PMMState} {page p : Nat}
    (h : pmm_find_free s page = some p) :
    page ≤ p ∧ p < s.total_pages ∧ bitmap_test p s = false ∧
    ∀ q, page ≤ q → q < p → bitmap_test q s = true :=
  pmm_find_free_aux_spec s _ page p h

theorem pmm_find_free_eq_none {s : PMMState} {page : Nat}
    (hall : ∀ p, page ≤ p → p < s.total_pages → bitmap_test p s = true) :
    pmm_find_free s page = none :=
  pmm_find_free_aux_eq_none s _ page hall

theorem pmm_find_free_first {s : PMMState} {page p : Nat}
    (hip : page ≤ p) (hp : p < s.total_pages) (ht : bitmap_test p s = false)
    (hall : ∀ q, page ≤ q → q < p → bitmap_test q s = true) :
    pmm_find_free s page = some p :=
  pmm_find_free_aux_first s _ page p (by omega) hip hp ht hall

/-! ## Claim C4 -/

/-- Claim C4: when every one of the `total_pages` frames is marked used,
`pmm_alloc_page` returns the failure indicator (`none`, modelling NULL) and
leaves the state untouched — no wraparound or out-of-range frame address is
produced. -/
theorem pmm_alloc_page_exhausted (s : PMMState)
    (h : ∀ p, p < s.total_pages → bitmap_test p s = true) :
    (pmm_alloc_page s).1 = none ∧ (pmm_alloc_page s).2 = s := by
  have hnone : pmm_find_free s 0 = none :=
    pmm_find_free_eq_none (fun p _ hp => h p hp)
  unfold pmm_alloc_page
  rw [hnone]
  exact ⟨rfl, rfl⟩

/-- Witness for C4 at a concrete exhausted state. -/
theorem pmm_alloc_page_exhausted_witness :
    (pmm_alloc_page pmm_exhausted_state).1 = none :=
  (pmm_alloc_page_exhausted pmm_exhausted_state (by decide)).1

/-! ## Claim C7 -/

/-- Claim C7: freeing an already-free frame leaves the state (hence
`used_pages` and the bitmap) unchanged, and an alloc-free-alloc sequence
with no other intervening operations returns the same frame address
(first fit, lowest free address). -/
theorem pmm_free_idempotent_realloc (s : PMMState) (addr a : Nat) :
    (bitmap_test (addr % U32 / PMM_PAGE_SIZE) s = false → pmm_free_page addr s = s) ∧
    ((pmm_alloc_page s).1 = some a →
      (pmm_alloc_page (pmm_free_page a (pmm_alloc_page s).2)).1 = some a) := by
  constructor
  · intro h
    unfold pmm_free_page
    rw [if_neg]
    rintro ⟨-, h2⟩
    rw [h] at h2
    exact Bool.false_ne_true h2
  · intro h
    cases hf : pmm_find_free s 0 with
    | none =>
      unfold pmm_alloc_page at h
      rw [hf] at h
      exact absurd h (by simp)
    | some p =>
      obtain ⟨-, hp_lt, hp_free, hfirst⟩ := pmm_find_free_spec hf
      have e1 : a = p * PMM_PAGE_SIZE % U32 := by
        unfold pmm_alloc_page at h
        rw [hf] at h
        exact (Option.some.inj h).symm
      have e2 : (pmm_alloc_page s).2 =
          { bitmap_set p s with used_pages := (s.used_pages + 1) % U32 } := by
        unfold pmm_alloc_page
        rw [hf]
      have hU : U32 = 1048576 * PMM_PAGE_SIZE := by norm_num [U32, PMM_PAGE_SIZE]
      have ha : a = p % 1048576 * PMM_PAGE_SIZE := by
        rw [e1, hU, Nat.mul_mod_mul_right]
      have hmp : p % 1048576 ≤ p := Nat.mod_le p 1048576
      have hm_lt : p % 1048576 < 1048576 := Nat.mod_lt _ (by norm_num)
      have hrange_p : p / 8 < PMM_BITMAP_SIZE := bitmap_test_false_in_range hp_free
      have hrange_m : p % 1048576 / 8 < PMM_BITMAP_SIZE :=
        Nat.lt_of_le_of_lt (Nat.div_le_div_right hmp) hrange_p
      have haU : a < U32 := by
        rw [ha, hU]
        exact (Nat.mul_lt_mul_right (by decide)).mpr hm_lt
      have hpn : a % U32 / PMM_PAGE_SIZE = p % 1048576 := by
        rw [Nat.mod_eq_of_lt haU, ha,
          Nat.mul_div_cancel _ (by decide : 0 < PMM_PAGE_SIZE)]
      rw [e2]
      set s1 : PMMState :=
        { bitmap_set p s with used_pages := (s.used_pages + 1) % U32 } with hs1
      have hs1tot : s1.total_pages = s.total_pages := bitmap_set_total_pages p s
      have hts1 : ∀ q, q ≠ p → bitmap_test q s1 = bitmap_test q s := by
        intro q hq
        show bitmap_test q (bitmap_set p s) = bitmap_test q s
        exact bitmap_test_set_ne s hq
      have htm : bitmap_test (p % 1048576) s1 = true := by
        by_cases hcase : p % 1048576 = p
        · rw [hcase]
          show bitmap_test p (bitmap_set p s) = true
          exact bitmap_test_set_self s hrange_p
        · have h1 : bitmap_test (p % 1048576) s1 =
              bitmap_test (p % 1048576) (bitmap_set p s) := rfl
          rw [h1, bitmap_test_set_ne s hcase]
          exact hfirst _ (Nat.zero_le _) (Nat.lt_of_le_of_ne hmp hcase)
      have hfree : pmm_free_page a s1 =
          { bitmap_clear (p % 1048576) s1 with
              used_pages := (s1.used_pages + (U32 - 1)) % U32 } := by
        unfold pmm_free_page
        rw [hpn]
        rw [if_pos ⟨by rw [hs1tot]; omega, htm⟩]
      rw [hfree]
      have hfind2 : pmm_find_free
          { bitmap_clear (p % 1048576) s1 with
              used_pages := (s1.used_pages + (U32 - 1)) % U32 } 0 =
          some (p % 1048576) := by
        refine pmm_find_free_first (Nat.zero_le _) ?_ ?_ ?_
        · rw [total_pages_used_irrel, bitmap_clear_total_pages, hs1tot]
          omega
        · rw [bitmap_test_used_irrel]
          exact bitmap_test_clear_self s1 hrange_m
        · intro q hq0 hqm
          rw [bitmap_test_used_irrel, bitmap_test_clear_ne s1 (by omega),
            hts1 q (by omega)]
          exact hfirst q (Nat.zero_le _) (by omega)
      unfold pmm_alloc_page
      rw [hfind2]
      show some (p % 1048576 * PMM_PAGE_SIZE % U32) = some a
      rw [ha, Nat.mod_eq_of_lt (by rw [← ha]; exact haU)]

/-- Witness for C7 at a concrete all-free state: freeing free frame 0 is a
no-op, and alloc-free-alloc returns address 0 twice. -/
theorem pmm_free_idempotent_realloc_witness :
    pmm_free_page 0 pmm_small_free_state = pmm_small_free_state ∧
    (pmm_alloc_page (pmm_free_page 0 (pmm_alloc_page pmm_small_free_state).2)).1 =
      some 0 := by
  obtain ⟨h1, h2⟩ := pmm_free_idempotent_realloc pmm_small_free_state 0 0
  exact ⟨h1 (by decide), h2 (by decide)⟩

/-! ## Claim C9 -/

/-- Counterexample to C9 as stated: `pmm_mark_used` does not bypass the
used-count side effect of alloc — marking the free, in-range frame 0 of a
concrete state changes `used_pages` from 0 to 1, so the call changes more
than that frame's bitmap bit. -/
theorem pmm_mark_used_changes_used_count :
    (pmm_mark_used 0 pmm_small_free_state).used_pages ≠
      pmm_small_free_state.used_pages := by decide

/-- Claim C9 (amended): `pmm_mark_used` and `pmm_mark_free` manipulate the
target frame's bitmap bit directly without the allocator's first-fit frame
search, but they duplicate (rather than bypass) the used-count side effects
of alloc/free: no other frame's bit ever changes; `pmm_mark_used` on an
in-range free frame sets exactly that bit and increments `used_pages`; and
`pmm_mark_free` is exactly `pmm_free_page`. -/
theorem pmm_mark_direct_bit_manipulation (s : PMMState) (addr q : Nat)
    (hq : q ≠ addr % U32 / PMM_PAGE_SIZE) :
    bitmap_test q (pmm_mark_used addr s) = bitmap_test q s ∧
    bitmap_test q (pmm_mark_free addr s) = bitmap_test q s ∧
    (addr % U32 / PMM_PAGE_SIZE < s.total_pages →
      bitmap_test (addr % U32 / PMM_PAGE_SIZE) s = false →
      bitmap_test (addr % U32 / PMM_PAGE_SIZE) (pmm_mark_used addr s) = true ∧
      (pmm_mark_used addr s).used_pages = (s.used_pages + 1) % U32) ∧
    pmm_mark_free addr s = pmm_free_page addr s := by
  refine ⟨?_, ?_, ?_, rfl⟩
  · unfold pmm_mark_used
    split
    · rw [bitmap_test_used_irrel]
      exact bitmap_test_set_ne s hq
    · rfl
  · unfold pmm_mark_free pmm_free_page
    split
    · rw [bitmap_test_used_irrel]
      exact bitmap_test_clear_ne s hq
    · rfl
  · intro h1 h2
    unfold pmm_mark_used
    rw [if_pos ⟨h1, h2⟩]
    constructor
    · rw [bitmap_test_used_irrel]
      exact bitmap_test_set_self s (bitmap_test_false_in_range h2)
    · rfl

/-- Witness for amended C9 at a concrete state: marking frame 0 used leaves
frame 1's bit alone, sets frame 0's bit, and increments the counter. -/
theorem pmm_mark_direct_bit_manipulation_witness :
    bitmap_test 1 (pmm_mark_used 0 pmm_small_free_state) =
      bitmap_test 1 pmm_small_free_state ∧
    bitmap_test 0 (pmm_mark_used 0 pmm_small_free_state) = true ∧
    (pmm_mark_used 0 pmm_small_free_state).used_pages =
      (pmm_small_free_state.used_pages + 1) % U32 := by
  obtain ⟨h1, -, h3, -⟩ :=
    pmm_mark_direct_bit_manipulation pmm_small_free_state 0 1 (by decide)
  obtain ⟨h4, h5⟩ := h3 (by decide) (by decide)
  exact ⟨h1, h4, h5⟩

/-! ## Bitwise arithmetic toolbox -/

theorem lor_eq_add_of_lt {x y k : Nat} (hx : x % 2 ^ k = 0) (hy : y < 2 ^ k) :
    x ||| y = x + y := by
  have hq : x = 2 ^ k * (x / 2 ^ k) := by
    conv_lhs => rw [← Nat.div_add_mod x (2 ^ k)]
    rw [hx, Nat.add_zero, Nat.mul_comm]
  apply Nat.eq_of_testBit_eq
  intro j
  rw [Nat.testBit_lor, hq, Nat.testBit_mul_pow_two_add _ hy,
    Nat.testBit_mul_pow_two]
  by_cases hj : j < k
  · rw [if_pos hj]
    have : ¬ k ≤ j := by omega
    simp [this]
  · rw [if_neg hj]
    have hyf : Nat.testBit y j = false :=
      Nat.testBit_lt_two_pow
        (Nat.lt_of_lt_of_le hy (Nat.pow_le_pow_right (by norm_num) (by omega)))
    have : k ≤ j := by omega
    simp [this, hyf]

theorem and_mul_pow_two (x m k : Nat) :
    x &&& ((2 ^ m - 1) * 2 ^ k) = x / 2 ^ k % 2 ^ m * 2 ^ k := by
  apply Nat.eq_of_testBit_eq
  intro j
  rw [Nat.testBit_land]
  have hmask : (2 ^ m - 1) * 2 ^ k = 2 ^ k * (2 ^ m - 1) + 0 := by ring
  rw [hmask, Nat.testBit_mul_pow_two_add _ (Nat.pos_pow_of_pos k (by norm_num)),
    show x / 2 ^ k % 2 ^ m * 2 ^ k = 2 ^ k * (x / 2 ^ k % 2 ^ m) + 0 by ring,
    Nat.testBit_mul_pow_two_add _ (Nat.pos_pow_of_pos k (by norm_num))]
  by_cases hj : j < k
  · simp [hj]
  · rw [if_neg hj, if_neg hj, Nat.testBit_two_pow_sub_one,
      Nat.testBit_mod_two_pow]
    have hdiv : Nat.testBit (x / 2 ^ k) (j - k) = Nat.testBit x j := by
      rw [← Nat.shiftRight_eq_div_pow, Nat.testBit_shiftRight]
      congr 1
      omega
    rw [hdiv]
    cases hx : Nat.testBit x j <;> simp

theorem and_0xFFF (x : Nat) : x &&& 0xFFF = x % 4096 := by
  have h : (0xFFF : Nat) = 2 ^ 12 - 1 := by norm_num
  rw [h, Nat.and_pow_two_sub_one_eq_mod]

theorem and_0xFFFF (x : Nat) : x &&& 0xFFFF = x % 65536 := by
  have h : (0xFFFF : Nat) = 2 ^ 16 - 1 := by norm_num
  rw [h, Nat.and_pow_two_sub_one_eq_mod]

theorem and_0x3FF (x : Nat) : x &&& 0x3FF = x % 1024 := by
  have h : (0x3FF : Nat) = 2 ^ 10 - 1 := by norm_num
  rw [h, Nat.and_pow_two_sub_one_eq_mod]

theorem and_0xFFFFF000 (x : Nat) : x &&& 0xFFFFF000 = x / 4096 % 1048576 * 4096 := by
  have h : (0xFFFFF000 : Nat) = (2 ^ 20 - 1) * 2 ^ 12 := by norm_num
  rw [h, and_mul_pow_two]
  norm_num

theorem and_0xFFFFF000_of_lt {x : Nat} (hx : x < U32) :
    x &&& 0xFFFFF000 = x / 4096 * 4096 := by
  rw [and_0xFFFFF000, Nat.mod_eq_of_lt]
  have : x / 4096 < U32 / 4096 := by
    apply Nat.div_lt_div_of_lt_of_dvd
    · decide
    · exact hx
  simpa [U32] using this

theorem aligned_lor_low {x y : Nat} (hx : x % 4096 = 0) (hy : y < 4096) :
    x ||| y = x + y := by
  have h1 : x % 2 ^ 12 = 0 := by simpa using hx
  have h2 : y < 2 ^ 12 := by simpa using hy
  exact lor_eq_add_of_lt h1 h2

/-! ## Claim C6: PIC EOI routing -/

/-- Claim C6: for every IRQ number (a uint8 value), `pic_send_eoi` with
`irq >= 8` writes the EOI command first to the slave command port and then
to the master command port; with `irq < 8` it writes it to the master
command port only. -/
theorem pic_send_eoi_routing (irq : Nat) (trace : List (Nat × Nat))
    (hirq : irq < 256) :
    (8 ≤ irq →
      pic_send_eoi irq trace = trace ++ [(PIC2_CMD, PIC_EOI), (PIC1_CMD, PIC_EOI)]) ∧
    (irq < 8 →
      pic_send_eoi irq trace = trace ++ [(PIC1_CMD, PIC_EOI)]) := by
  have hmod : irq % 256 = irq := Nat.mod_eq_of_lt hirq
  constructor
  · intro h8
    unfold pic_send_eoi outb
    rw [hmod, if_pos h8]
    simp
  · intro h8
    unfold pic_send_eoi outb
    rw [hmod, if_neg (by omega)]

/-- Witness for C6: IRQ 10 (slave-sourced) acknowledges both controllers in
slave-then-master order; IRQ 2 (master-sourced) acknowledges the master
only. -/
theorem pic_send_eoi_routing_witness :
    pic_send_eoi 10 [] = [(PIC2_CMD, PIC_EOI), (PIC1_CMD, PIC_EOI)] ∧
    pic_send_eoi 2 [] = [(PIC1_CMD, PIC_EOI)] := by
  constructor
  · have h := (pic_send_eoi_routing 10 [] (by decide)).1 (by decide)
    simpa using h
  · have h := (pic_send_eoi_routing 2 [] (by decide)).2 (by decide)
    simpa using h

/-! ## Claim C8: IDT gate installation round trip -/

/-- Claim C8: for every handler address `H` (a uint32 value),
`idt_set_gate(14, H, 0x08, 0x8E)` followed by reading back table entry 14
reconstructs exactly `H` from the two 16-bit offset fields
(`offset_low | offset_high << 16`), selector `0x08` from the selector
field, and flags `0x8E` from the type/attribute field. -/
theorem idt_set_gate_roundtrip (t : idt_table) (H : Nat) (hH : H < U32) :
    (idt_set_gate t 14 H 0x08 0x8E 14).offset_low |||
      ((idt_set_gate t 14 H 0x08 0x8E 14).offset_high <<< 16) = H ∧
    (idt_set_gate t 14 H 0x08 0x8E 14).selector = 0x08 ∧
    (idt_set_gate t 14 H 0x08 0x8E 14).type_attr = 0x8E := by
  have hmod : H % U32 = H := Nat.mod_eq_of_lt hH
  have hentry : idt_set_gate t 14 H 0x08 0x8E 14 =
      { offset_low := H % U32 &&& 0xFFFF
        selector := 0x08 % 65536
        zero := 0
        type_attr := 0x8E % 256
        offset_high := ((H % U32) >>> 16) &&& 0xFFFF } := by
    unfold idt_set_gate
    rw [if_pos (by norm_num)]
  rw [hentry]
  refine ⟨?_, by norm_num, by norm_num⟩
  show (H % U32 &&& 0xFFFF) ||| (((H % U32) >>> 16) &&& 0xFFFF) <<< 16 = H
  rw [hmod, and_0xFFFF, Nat.shiftRight_eq_div_pow, and_0xFFFF,
    Nat.shiftLeft_eq]
  have hdivlt : H / 2 ^ 16 < 65536 := by
    have : H / 2 ^ 16 < U32 / 2 ^ 16 := by
      apply Nat.div_lt_div_of_lt_of_dvd
      · decide
      · exact hH
    simpa [U32] using this
  rw [Nat.mod_eq_of_lt hdivlt]
  have h1 : (H / 2 ^ 16 * 2 ^ 16) % 2 ^ 16 = 0 := Nat.mul_mod_left _ _
  have h2 : H % 65536 < 2 ^ 16 := by
    have := Nat.mod_lt H (y := 65536) (by norm_num)
    simpa using this
  rw [Nat.lor_comm, lor_eq_add_of_lt h1 h2]
  have h3 := Nat.div_add_mod H 65536
  have h4 : (2 : Nat) ^ 16 = 65536 := by norm_num
  omega

/-- Witness for C8 at a concrete handler address. -/
theorem idt_set_gate_roundtrip_witness :
    (idt_set_gate idt_cleared 14 0xDEADBEEF 0x08 0x8E 14).offset_low |||
      ((idt_set_gate idt_cleared 14 0xDEADBEEF 0x08 0x8E 14).offset_high <<< 16) =
      0xDEADBEEF ∧
    (idt_set_gate idt_cleared 14 0xDEADBEEF 0x08 0x8E 14).selector = 0x08 ∧
    (idt_set_gate idt_cleared 14 0xDEADBEEF 0x08 0x8E 14).type_attr = 0x8E :=
  idt_set_gate_roundtrip idt_cleared 0xDEADBEEF (by decide)

/-! ## Used-frame counting lemmas -/

theorem count_used_below_le (s : PMMState) : ∀ n, count_used_below s n ≤ n := by
  intro n
  induction n with
  | zero => exact Nat.le_refl 0
  | succ n ih =>
    rw [count_used_below]
    split <;> omega

theorem count_used_below_congr_lt (s1 s2 : PMMState) :
    ∀ n, (∀ q, q < n → bitmap_test q s1 = bitmap_test q s2) →
      count_used_below s1 n = count_used_below s2 n := by
  intro n
  induction n with
  | zero => intro _; rfl
  | succ n ih =>
    intro h
    rw [count_used_below, count_used_below, ih (fun q hq => h q (by omega)),
      h n (by omega)]

theorem count_used_below_set (s : PMMState) (p : Nat)
    (hrange : p / 8 < PMM_BITMAP_SIZE) (hfree : bitmap_test p s = false) :
    ∀ n, p < n → count_used_below (bitmap_set p s) n = count_used_below s n + 1 := by
  intro n
  induction n with
  | zero => intro hpn; omega
  | succ n ih =>
    intro hpn
    rw [count_used_below, count_used_below]
    by_cases hc : p = n
    · subst hc
      rw [count_used_below_congr_lt (bitmap_set p s) s p
          (fun q hq => bitmap_test_set_ne s (by omega)),
        bitmap_test_set_self s hrange, hfree]
      simp
    · rw [ih (by omega), bitmap_test_set_ne s (show n ≠ p by omega)]
      ring

theorem count_used_below_clear (s : PMMState) (p : Nat)
    (hrange : p / 8 < PMM_BITMAP_SIZE) (hused : bitmap_test p s = true) :
    ∀ n, p < n → count_used_below (bitmap_clear p s) n + 1 = count_used_below s n := by
  intro n
  induction n with
  | zero => intro hpn; omega
  | succ n ih =>
    intro hpn
    rw [count_used_below, count_used_below]
    by_cases hc : p = n
    · subst hc
      rw [count_used_below_congr_lt (bitmap_clear p s) s p
          (fun q hq => bitmap_test_clear_ne s (by omega)),
        bitmap_test_clear_self s hrange, hused]
      simp
    · rw [← ih (by omega), bitmap_test_clear_ne s (show n ≠ p by omega)]
      ring

theorem count_used_below_all_true (s : PMMState) :
    ∀ n, (∀ q, q < n → bitmap_test q s = true) → count_used_below s n = n := by
  intro n
  induction n with
  | zero => intro _; rfl
  | succ n ih =>
    intro h
    rw [count_used_below, ih (fun q hq => h q (by omega)), h n (by omega)]
    simp

theorem count_used_below_of_split (s : PMMState) (k : Nat) :
    ∀ n, k ≤ n → (∀ q, q < k → bitmap_test q s = true) →
      (∀ q, k ≤ q → q < n → bitmap_test q s = false) →
      count_used_below s n = k := by
  intro n
  induction n with
  | zero =>
    intro hk _ _
    have hz : k = 0 := by omega
    subst hz
    rfl
  | succ n ih =>
    intro hk hlow hhigh
    by_cases hkn : k ≤ n
    · rw [count_used_below, ih hkn hlow (fun q h1 h2 => hhigh q h1 (by omega)),
        hhigh n hkn (by omega)]
      simp
    · have hkeq : k = n + 1 := by omega
      rw [count_used_below, count_used_below_all_true s n
          (fun q hq => hlow q (by omega)), hlow n (by omega)]
      simp [hkeq]

theorem pmm_used_count_used_irrel (u : Nat) (s : PMMState) :
    pmm_used_count { s with used_pages := u } = pmm_used_count s := by
  unfold pmm_used_count
  rw [total_pages_used_irrel]
  exact count_used_below_congr_lt _ _ _ (fun q _ => bitmap_test_used_irrel q u s)

/-! ## Invariant preservation by alloc and free -/

theorem pmm_inv_alloc (s : PMMState) (h : PMMInv s) : PMMInv (pmm_alloc_page s).2 := by
  obtain ⟨hused, htot⟩ := h
  cases hf : pmm_find_free s 0 with
  | none =>
    unfold pmm_alloc_page
    rw [hf]
    exact ⟨hused, htot⟩
  | some p =>
    obtain ⟨-, hp_lt, hp_free, -⟩ := pmm_find_free_spec hf
    have hrange : p / 8 < PMM_BITMAP_SIZE := bitmap_test_false_in_range hp_free
    have hcle : count_used_below s s.total_pages ≤ s.total_pages :=
      count_used_below_le s _
    unfold pmm_used_count at hused
    unfold pmm_alloc_page
    rw [hf]
    constructor
    · show (s.used_pages + 1) % U32 = pmm_used_count _
      rw [pmm_used_count_used_irrel]
      unfold pmm_used_count
      rw [bitmap_set_total_pages,
        count_used_below_set s p hrange hp_free s.total_pages hp_lt, ← hused,
        Nat.mod_eq_of_lt]
      have : PMM_BITMAP_SIZE * 8 + 1 < U32 := by decide
      omega
    · show ({ bitmap_set p s with
          used_pages := (s.used_pages + 1) % U32 } : PMMState).total_pages ≤ _
      rw [total_pages_used_irrel, bitmap_set_total_pages]
      exact htot

theorem pmm_inv_free (a : Nat) (s : PMMState) (h : PMMInv s) :
    PMMInv (pmm_free_page a s) := by
  obtain ⟨hused, htot⟩ := h
  unfold pmm_used_count at hused
  unfold pmm_free_page
  split
  case isTrue hc =>
    obtain ⟨hlt, htest⟩ := hc
    have hrange : a % U32 / PMM_PAGE_SIZE / 8 < PMM_BITMAP_SIZE := by
      rw [Nat.div_lt_iff_lt_mul (by norm_num)]
      omega
    have hclear := count_used_below_clear s (a % U32 / PMM_PAGE_SIZE) hrange htest
      s.total_pages hlt
    have hcle : count_used_below s s.total_pages ≤ s.total_pages :=
      count_used_below_le s _
    have hbound : PMM_BITMAP_SIZE * 8 < U32 := by decide
    constructor
    · show (s.used_pages + (U32 - 1)) % U32 = pmm_used_count _
      rw [pmm_used_count_used_irrel]
      unfold pmm_used_count
      rw [bitmap_clear_total_pages]
      have hpos : 1 ≤ s.used_pages := by omega
      have heq : s.used_pages + (U32 - 1) = (s.used_pages - 1) + U32 := by omega
      rw [heq, Nat.add_mod_right, Nat.mod_eq_of_lt (by omega)]
      omega
    · show ({ bitmap_clear (a % U32 / PMM_PAGE_SIZE) s with
          used_pages := (s.used_pages + (U32 - 1)) % U32 } : PMMState).total_pages ≤ _
      rw [total_pages_used_irrel, bitmap_clear_total_pages]
      exact htot
  case isFalse =>
    exact ⟨hused, htot⟩

theorem pmm_inv_apply_op (s : PMMState) (op : PMMOp) (h : PMMInv s) :
    PMMInv (pmm_apply_op s op) := by
  cases op with
  | alloc => exact pmm_inv_alloc s h
  | free a => exact pmm_inv_free a s h

theorem pmm_inv_run (s : PMMState) (ops : List PMMOp) (h : PMMInv s) :
    PMMInv (pmm_run s ops) := by
  induction ops generalizing s with
  | nil => exact h
  | cons op ops ih => exact ih _ (pmm_inv_apply_op s op h)

/-! ## Clear-loop characterization -/

theorem pmm_clear_loop_aux_total :
    ∀ fuel (s : PMMState) i e,
      (pmm_clear_loop_aux fuel s i e).total_pages = s.total_pages := by
  intro fuel
  induction fuel with
  | zero => intro s i e; rfl
  | succ fuel ih =>
    intro s i e
    rw [pmm_clear_loop_aux]
    split
    · rw [ih, bitmap_clear_total_pages]
    · rfl

theorem pmm_clear_loop_aux_test_out :
    ∀ fuel (s : PMMState) i e q, (q < i ∨ e ≤ q) →
      bitmap_test q (pmm_clear_loop_aux fuel s i e) = bitmap_test q s := by
  intro fuel
  induction fuel with
  | zero => intro s i e q _; rfl
  | succ fuel ih =>
    intro s i e q hq
    rw [pmm_clear_loop_aux]
    split
    case isTrue hie =>
      rw [ih (bitmap_clear i s) (i + 1) e q (by omega),
        bitmap_test_clear_ne s (by omega)]
    case isFalse => rfl

theorem pmm_clear_loop_aux_test_in :
    ∀ fuel (s : PMMState) i e q, q / 8 < PMM_BITMAP_SIZE →
      i ≤ q → q < e → q < i + fuel →
      bitmap_test q (pmm_clear_loop_aux fuel s i e) = false := by
  intro fuel
  induction fuel with
  | zero => intro s i e q _ _ _ _; omega
  | succ fuel ih =>
    intro s i e q hrange hiq hqe hqf
    rw [pmm_clear_loop_aux, if_pos (by omega)]
    by_cases hc : q = i
    · subst hc
      rw [pmm_clear_loop_aux_test_out fuel _ (q + 1) e q (by omega)]
      exact bitmap_test_clear_self s hrange
    · exact ih (bitmap_clear i s) (i + 1) e q hrange (by omega) hqe (by omega)

/-! ## The second pass and the counting loop of `pmm_init` -/

theorem pmm_clear_region_loop_aux_total :
    ∀ fuel (s : PMMState) page e,
      (pmm_clear_region_loop_aux fuel s page e).total_pages = s.total_pages := by
  intro fuel
  induction fuel with
  | zero => intro s page e; rfl
  | succ fuel ih =>
    intro s page e
    rw [pmm_clear_region_loop_aux]
    split
    · rw [ih, bitmap_clear_total_pages]
    · rfl

theorem pmm_second_pass_total (s : PMMState) (mmap : List multiboot_mmap_entry) :
    (pmm_second_pass s mmap).total_pages = s.total_pages := by
  induction mmap generalizing s with
  | nil => rfl
  | cons e mmap ih =>
    have hstep : pmm_second_pass s (e :: mmap) =
        pmm_second_pass
          (if e.typ % U32 = MULTIBOOT_MEMORY_AVAILABLE ∧ PMM_LOW_MEMORY ≤ e.addr % U64
           then pmm_clear_region_loop s (e.addr % U64 / PMM_PAGE_SIZE % U32)
             ((e.addr % U64 + e.len % U64) % U64 / PMM_PAGE_SIZE % U32)
           else s) mmap := rfl
    rw [hstep, ih]
    split
    · unfold pmm_clear_region_loop
      rw [pmm_clear_region_loop_aux_total]
    · rfl

theorem pmm_count_used_foldl (s : PMMState) :
    ∀ n, n < U32 →
      (List.range n).foldl
        (fun acc i => if bitmap_test i s then (acc + 1) % U32 else acc) 0 =
      count_used_below s n := by
  intro n
  induction n with
  | zero => intro _; rfl
  | succ n ih =>
    intro hn
    rw [List.range_succ, List.foldl_append, ih (by omega), count_used_below]
    have hle : count_used_below s n ≤ n := count_used_below_le s n
    cases ht : bitmap_test n s
    · simp [List.foldl, ht]
    · simp only [List.foldl, ht, if_true]
      rw [Nat.mod_eq_of_lt (by omega)]

theorem pmm_count_used_eq (s : PMMState) (h : s.total_pages < U32) :
    pmm_count_used s = count_used_below s s.total_pages :=
  pmm_count_used_foldl s s.total_pages h

/-! ## `pmm_init` establishes the invariant -/

theorem pmm_init_inv (mboot : multiboot_info)
    (h : mboot.flags &&& 0x40 ≠ 0 ∨
      PMM_LOW_MEMORY / PMM_PAGE_SIZE ≤
        (mboot.mem_lower % U32 + mboot.mem_upper % U32) % U32 * 1024 % U32 /
          PMM_PAGE_SIZE) :
    PMMInv (pmm_init mboot) := by
  by_cases hf : mboot.flags &&& 0x40 = 0
  · -- no-memory-map fallback; the hypothesis gives total_pages ≥ 256
    have h256 : PMM_LOW_MEMORY / PMM_PAGE_SIZE ≤
        (mboot.mem_lower % U32 + mboot.mem_upper % U32) % U32 * 1024 % U32 /
          PMM_PAGE_SIZE := by
      rcases h with h1 | h2
      · exact absurd hf h1
      · exact h2
    simp only [pmm_init, if_pos hf]
    set mem_kb := (mboot.mem_lower % U32 + mboot.mem_upper % U32) % U32 with hkb
    set total := mem_kb * 1024 % U32 / PMM_PAGE_SIZE with htotal
    have htlt : total < 1048576 := by
      rw [htotal]
      have h1 : mem_kb * 1024 % U32 < U32 := Nat.mod_lt _ (by decide)
      rw [Nat.div_lt_iff_lt_mul (by decide : 0 < PMM_PAGE_SIZE)]
      calc mem_kb * 1024 % U32 < U32 := h1
        _ ≤ 1048576 * PMM_PAGE_SIZE := by decide
    have hsp : PMM_LOW_MEMORY / PMM_PAGE_SIZE = 256 := by decide
    constructor
    · show (PMM_LOW_MEMORY / PMM_PAGE_SIZE : Nat) = pmm_used_count _
      rw [pmm_used_count_used_irrel]
      unfold pmm_used_count pmm_clear_loop
      rw [pmm_clear_loop_aux_total, hsp]
      have hsplit := count_used_below_of_split
        (pmm_clear_loop_aux (total - 256)
          { bitmap := fun _ => true, total_pages := total, used_pages := 0
            max_physical_address := mem_kb * 1024 % U32 } 256 total)
        256 total (by simpa [PMM_LOW_MEMORY, PMM_PAGE_SIZE] using h256)
        (fun q hq => by
          rw [pmm_clear_loop_aux_test_out _ _ _ _ _ (Or.inl hq)]
          unfold bitmap_test
          split <;> rfl)
        (fun q h1 h2 => by
          refine pmm_clear_loop_aux_test_in _ _ _ _ _ ?_ h1 h2 (by omega)
          have : q < PMM_BITMAP_SIZE := by
            unfold PMM_BITMAP_SIZE
            omega
          omega)
      rw [hsplit]
    · show ({ pmm_clear_loop _ 256 total with used_pages := 256 } : PMMState).total_pages ≤ _
      rw [total_pages_used_irrel]
      unfold pmm_clear_loop
      rw [pmm_clear_loop_aux_total]
      show total ≤ PMM_BITMAP_SIZE * 8
      unfold PMM_BITMAP_SIZE
      omega
  · -- memory-map branch: used_pages is recomputed by counting
    simp only [pmm_init, if_neg hf]
    set maxp := pmm_first_pass mboot.mmap with hmaxp
    set total0 := maxp / PMM_PAGE_SIZE % U32 with htotal0
    set total := if PMM_BITMAP_SIZE * 8 < total0 then PMM_BITMAP_SIZE * 8 else total0
      with htotal
    set s1 : PMMState :=
      { bitmap := fun _ => true, total_pages := total, used_pages := 0
        max_physical_address := maxp } with hs1
    set s2 := pmm_second_pass s1 mboot.mmap with hs2
    have htot2 : s2.total_pages = total := by
      rw [hs2, pmm_second_pass_total]
    have htbound : total ≤ PMM_BITMAP_SIZE * 8 := by
      rw [htotal]
      split <;> omega
    constructor
    · show pmm_count_used s2 = pmm_used_count _
      rw [pmm_used_count_used_irrel]
      unfold pmm_used_count
      rw [pmm_count_used_eq s2 (by rw [htot2]; calc
            total ≤ PMM_BITMAP_SIZE * 8 := htbound
            _ < U32 := by decide)]
    · show ({ s2 with used_pages := pmm_count_used s2 } : PMMState).total_pages ≤ _
      rw [total_pages_used_irrel, htot2]
      exact htbound

/-! ## Conservation from the invariant -/

theorem pmm_conservation_of_inv (s : PMMState) (h : PMMInv s) :
    (pmm_get_stats s).used_pages + (pmm_get_stats s).free_pages =
      (pmm_get_stats s).total_pages := by
  obtain ⟨hused, htot⟩ := h
  have hcle : pmm_used_count s ≤ s.total_pages := count_used_below_le s _
  have hbound : PMM_BITMAP_SIZE * 8 < U32 := by decide
  simp only [pmm_get_stats, u32_sub]
  have h1 : s.used_pages < U32 := by omega
  have h2 : s.total_pages < U32 := by omega
  rw [Nat.mod_eq_of_lt h1, Nat.mod_eq_of_lt h2]
  have heq : s.total_pages + (U32 - s.used_pages) =
      (s.total_pages - s.used_pages) + U32 := by omega
  rw [heq, Nat.add_mod_right, Nat.mod_eq_of_lt (by omega)]
  omega

/-! ## Claim C1: bitmap conservation -/

/-- Counterexample to C1 as stated: on a multiboot info without a memory
map reporting only 640 KiB, `pmm_init` computes `total_pages = 160` but
sets `used_pages = 256`, and after one `pmm_free_page(0)` call the
reported `used_pages + free_pages` (with `free_pages` computed by uint32
subtraction) does not equal `total_pages`. -/
theorem pmm_conservation_counterexample :
    (pmm_get_stats (pmm_run (pmm_init pmm_no_mmap_info) [PMMOp.free 0])).used_pages +
      (pmm_get_stats (pmm_run (pmm_init pmm_no_mmap_info) [PMMOp.free 0])).free_pages ≠
      (pmm_get_stats (pmm_run (pmm_init pmm_no_mmap_info) [PMMOp.free 0])).total_pages := by
  decide

/-- Claim C1 (amended): for every sequence of `pmm_alloc_page` and
`pmm_free_page` calls made after a `pmm_init` whose multiboot info either
carries a memory map (`flags` bit 6 set) or reports at least 1 MiB worth of
pages in the no-map fallback (so that `total_pages ≥ 256`), the counts
reported by `pmm_get_stats` satisfy
`used_pages + free_pages = total_pages` after every call. -/
theorem pmm_conservation (mboot : multiboot_info) (ops : List PMMOp)
    (h : mboot.flags &&& 0x40 ≠ 0 ∨
      PMM_LOW_MEMORY / PMM_PAGE_SIZE ≤
        (mboot.mem_lower % U32 + mboot.mem_upper % U32) % U32 * 1024 % U32 /
          PMM_PAGE_SIZE) :
    (pmm_get_stats (pmm_run (pmm_init mboot) ops)).used_pages +
      (pmm_get_stats (pmm_run (pmm_init mboot) ops)).free_pages =
      (pmm_get_stats (pmm_run (pmm_init mboot) ops)).total_pages :=
  pmm_conservation_of_inv _ (pmm_inv_run _ _ (pmm_init_inv mboot h))

/-- Witness for amended C1: the spec's hole scenario with an
alloc-free-alloc call sequence. -/
theorem pmm_conservation_witness :
    (pmm_get_stats (pmm_run (pmm_init mboot_hole_example)
        [PMMOp.alloc, PMMOp.free 0x100000, PMMOp.alloc])).used_pages +
      (pmm_get_stats (pmm_run (pmm_init mboot_hole_example)
        [PMMOp.alloc, PMMOp.free 0x100000, PMMOp.alloc])).free_pages =
      (pmm_get_stats (pmm_run (pmm_init mboot_hole_example)
        [PMMOp.alloc, PMMOp.free 0x100000, PMMOp.alloc])).total_pages :=
  pmm_conservation mboot_hole_example _ (Or.inl (by decide))

/-! ## Region clear-loop characterization (pmm_init second pass) -/

theorem pmm_clear_region_loop_aux_test_out :
    ∀ fuel (s : PMMState) page e q, (q < page ∨ e ≤ q ∨ s.total_pages ≤ q) →
      bitmap_test q (pmm_clear_region_loop_aux fuel s page e) = bitmap_test q s := by
  intro fuel
  induction fuel with
  | zero => intro s page e q _; rfl
  | succ fuel ih =>
    intro s page e q hq
    rw [pmm_clear_region_loop_aux]
    split
    case isTrue hc =>
      have htot := bitmap_clear_total_pages page s
      rw [ih (bitmap_clear page s) (page + 1) e q (by rw [htot]; omega),
        bitmap_test_clear_ne s (by omega)]
    case isFalse => rfl

theorem pmm_clear_region_loop_aux_test_in :
    ∀ fuel (s : PMMState) page e q, q / 8 < PMM_BITMAP_SIZE →
      page ≤ q → q < e → q < page + fuel → q < s.total_pages →
      bitmap_test q (pmm_clear_region_loop_aux fuel s page e) = false := by
  intro fuel
  induction fuel with
  | zero => intro s page e q _ _ _ _ _; omega
  | succ fuel ih =>
    intro s page e q hrange h1 h2 h3 h4
    rw [pmm_clear_region_loop_aux, if_pos ⟨by omega, by omega⟩]
    by_cases hc : q = page
    · subst hc
      rw [pmm_clear_region_loop_aux_test_out fuel _ (q + 1) e q (by omega)]
      exact bitmap_test_clear_self s hrange
    · have htot := bitmap_clear_total_pages page s
      exact ih (bitmap_clear page s) (page + 1) e q hrange (by omega) h2 (by omega)
        (by omega)

theorem pmm_clear_region_loop_aux_mono :
    ∀ fuel (s : PMMState) page e q, bitmap_test q s = false →
      bitmap_test q (pmm_clear_region_loop_aux fuel s page e) = false := by
  intro fuel
  induction fuel with
  | zero => intro s page e q h; exact h
  | succ fuel ih =>
    intro s page e q h
    rw [pmm_clear_region_loop_aux]
    split
    case isTrue hc =>
      refine ih (bitmap_clear page s) (page + 1) e q ?_
      by_cases hq : q = page
      · subst hq
        exact bitmap_test_clear_self s (bitmap_test_false_in_range h)
      · rw [bitmap_test_clear_ne s hq]
        exact h
    case isFalse => exact h

/-! ## Second-pass characterization -/

theorem pmm_second_pass_step (s : PMMState) (e : multiboot_mmap_entry)
    (mmap : List multiboot_mmap_entry) :
    pmm_second_pass s (e :: mmap) =
      pmm_second_pass
        (if e.typ % U32 = MULTIBOOT_MEMORY_AVAILABLE ∧ PMM_LOW_MEMORY ≤ e.addr % U64
         then pmm_clear_region_loop s (e.addr % U64 / PMM_PAGE_SIZE % U32)
           ((e.addr % U64 + e.len % U64) % U64 / PMM_PAGE_SIZE % U32)
         else s) mmap := rfl

theorem pmm_second_pass_mono :
    ∀ (mmap : List multiboot_mmap_entry) (s : PMMState) q,
      bitmap_test q s = false → bitmap_test q (pmm_second_pass s mmap) = false := by
  intro mmap
  induction mmap with
  | nil => intro s q h; exact h
  | cons e mmap ih =>
    intro s q h
    rw [pmm_second_pass_step]
    refine ih _ q ?_
    split
    · unfold pmm_clear_region_loop
      exact pmm_clear_region_loop_aux_mono _ s _ _ q h
    · exact h

theorem pmm_second_pass_test_out :
    ∀ (mmap : List multiboot_mmap_entry) (s : PMMState) q,
      (∀ e ∈ mmap, ¬(e.typ % U32 = MULTIBOOT_MEMORY_AVAILABLE ∧
          PMM_LOW_MEMORY ≤ e.addr % U64 ∧
          e.addr % U64 / PMM_PAGE_SIZE % U32 ≤ q ∧
          q < (e.addr % U64 + e.len % U64) % U64 / PMM_PAGE_SIZE % U32)) →
      bitmap_test q (pmm_second_pass s mmap) = bitmap_test q s := by
  intro mmap
  induction mmap with
  | nil => intro s q _; rfl
  | cons e mmap ih =>
    intro s q h
    rw [pmm_second_pass_step,
      ih _ q (fun a ha => h a (List.mem_cons_of_mem e ha))]
    split
    case isTrue hc =>
      have hne := h e (List.mem_cons_self e mmap)
      unfold pmm_clear_region_loop
      refine pmm_clear_region_loop_aux_test_out _ s _ _ q ?_
      obtain ⟨h1, h2⟩ := hc
      omega
    case isFalse => rfl

theorem pmm_second_pass_covered :
    ∀ (mmap : List multiboot_mmap_entry) (s : PMMState) q
      (e : multiboot_mmap_entry), e ∈ mmap →
      e.typ % U32 = MULTIBOOT_MEMORY_AVAILABLE →
      PMM_LOW_MEMORY ≤ e.addr % U64 →
      e.addr % U64 / PMM_PAGE_SIZE % U32 ≤ q →
      q < (e.addr % U64 + e.len % U64) % U64 / PMM_PAGE_SIZE % U32 →
      q < s.total_pages → q / 8 < PMM_BITMAP_SIZE →
      bitmap_test q (pmm_second_pass s mmap) = false := by
  intro mmap
  induction mmap with
  | nil => intro s q e he; exact absurd he (List.not_mem_nil e)
  | cons a mmap ih =>
    intro s q e he htyp haddr h1 h2 htot hrange
    rw [pmm_second_pass_step]
    rcases List.mem_cons.mp he with heq | hmem
    · subst heq
      rw [if_pos ⟨htyp, haddr⟩]
      refine pmm_second_pass_mono mmap _ q ?_
      unfold pmm_clear_region_loop
      exact pmm_clear_region_loop_aux_test_in _ s _ _ q hrange h1 h2 (by omega) htot
    · have htot' : (if a.typ % U32 = MULTIBOOT_MEMORY_AVAILABLE ∧
          PMM_LOW_MEMORY ≤ a.addr % U64
         then pmm_clear_region_loop s (a.addr % U64 / PMM_PAGE_SIZE % U32)
           ((a.addr % U64 + a.len % U64) % U64 / PMM_PAGE_SIZE % U32)
         else s).total_pages = s.total_pages := by
        split
        · unfold pmm_clear_region_loop
          rw [pmm_clear_region_loop_aux_total]
        · rfl
      exact ih _ q e hmem htyp haddr h1 h2 (by rw [htot']; exact htot) hrange

/-- The total-page bound computed by `pmm_init` in the memory-map branch. -/
theorem pmm_init_total_pages_mmap (mboot : multiboot_info)
    (hflags : ¬ (mboot.flags &&& 0x40 = 0)) :
    (pmm_init mboot).total_pages =
      (if PMM_BITMAP_SIZE * 8 < pmm_first_pass mboot.mmap / PMM_PAGE_SIZE % U32
       then PMM_BITMAP_SIZE * 8
       else pmm_first_pass mboot.mmap / PMM_PAGE_SIZE % U32) := by
  simp only [pmm_init, if_neg hflags]
  rw [total_pages_used_irrel, pmm_second_pass_total]

/-! ## Claim C3: which frames pmm_init leaves free -/

/-- Counterexample to C3 as stated: with the single available region
`[0, 0x200000)` (whose start address is below 1 MiB), the frame at
`0x100000` — frame index `0x100`, inside an available-typed region, at the
1 MiB boundary, and below the total-page bound of 512 — is still marked
used after `pmm_init`, because pass 2 skips any available region whose
start address is below 1 MiB, rather than skipping only its sub-1-MiB
frames. -/
theorem pmm_init_frame_above_1mb_counterexample :
    bitmap_test 0x100 (pmm_init mboot_low_avail) = true ∧
      (pmm_init mboot_low_avail).total_pages = 512 := by
  constructor
  · decide
  · decide

/-- Claim C3 (amended): after `pmm_init` with a multiboot memory map,
every frame inside an available-typed region whose start address is at or
above the 1 MiB boundary (and below the total-page bound) is free, while
every frame covered by no such region — in particular every frame of the
low 1 MiB, and, in a non-overlapping map, every frame of
reserved/ACPI/NVS/bad-RAM regions — is marked used. -/
theorem pmm_init_memory_map_frames (mboot : multiboot_info)
    (hflags : ¬ (mboot.flags &&& 0x40 = 0)) :
    (∀ e ∈ mboot.mmap, e.typ % U32 = MULTIBOOT_MEMORY_AVAILABLE →
      PMM_LOW_MEMORY ≤ e.addr % U64 →
      ∀ p, e.addr % U64 / PMM_PAGE_SIZE % U32 ≤ p →
        p < (e.addr % U64 + e.len % U64) % U64 / PMM_PAGE_SIZE % U32 →
        p < (pmm_init mboot).total_pages →
        bitmap_test p (pmm_init mboot) = false) ∧
    (∀ p, (∀ e ∈ mboot.mmap, ¬(e.typ % U32 = MULTIBOOT_MEMORY_AVAILABLE ∧
        PMM_LOW_MEMORY ≤ e.addr % U64 ∧
        e.addr % U64 / PMM_PAGE_SIZE % U32 ≤ p ∧
        p < (e.addr % U64 + e.len % U64) % U64 / PMM_PAGE_SIZE % U32)) →
      bitmap_test p (pmm_init mboot) = true) := by
  have htotal := pmm_init_total_pages_mmap mboot hflags
  constructor
  · intro e he htyp haddr p h1 h2 h3
    rw [htotal] at h3
    have hbound : p < PMM_BITMAP_SIZE * 8 := by
      rcases Nat.lt_or_ge (PMM_BITMAP_SIZE * 8)
          (pmm_first_pass mboot.mmap / PMM_PAGE_SIZE % U32) with hc | hc
      · rw [if_pos hc] at h3; omega
      · rw [if_neg (by omega)] at h3; omega
    have hrange : p / 8 < PMM_BITMAP_SIZE := by
      rw [Nat.div_lt_iff_lt_mul (by norm_num)]
      omega
    simp only [pmm_init, if_neg hflags]
    rw [bitmap_test_used_irrel]
    refine pmm_second_pass_covered mboot.mmap _ p e he htyp haddr h1 h2 ?_ hrange
    show p < (if PMM_BITMAP_SIZE * 8 < _ then PMM_BITMAP_SIZE * 8 else _)
    exact h3
  · intro p hall
    simp only [pmm_init, if_neg hflags]
    rw [bitmap_test_used_irrel, pmm_second_pass_test_out mboot.mmap _ p hall]
    unfold bitmap_test
    split <;> rfl

/-- Witness for amended C3 on the spec's hole scenario: frame `0x200`
(inside `[0x100000,0x500000)` available) is free, frame `0x550` (inside
`[0x500000,0x600000)` reserved) and frame `0x50` (low 1 MiB) remain
used. -/
theorem pmm_init_memory_map_frames_witness :
    bitmap_test 0x200 (pmm_init mboot_hole_example) = false ∧
    bitmap_test 0x550 (pmm_init mboot_hole_example) = true ∧
    bitmap_test 0x50 (pmm_init mboot_hole_example) = true := by
  obtain ⟨h1, h2⟩ := pmm_init_memory_map_frames mboot_hole_example (by decide)
  refine ⟨?_, h2 0x550 (by decide), h2 0x50 (by decide)⟩
  refine h1 { addr := 0x100000, len := 0x400000, typ := 1 }
    (by simp [mboot_hole_example]) (by decide) (by decide) 0x200 (by decide)
    (by decide) ?_
  rw [pmm_init_total_pages_mmap mboot_hole_example (by decide)]
  decide

/-! ## VMM: what vmm_map_page writes -/

theorem vmm_map_page_entry (dir : page_directory) (virt phys flags : Nat)
    (pmm : PMMState)
    (hs : (vmm_map_page dir virt phys flags pmm).1 = true) :
    ∃ pt, (vmm_map_page dir virt phys flags pmm).2.1.tables (PD_INDEX virt) = some pt ∧
      pt.entries (PT_INDEX virt) = (phys &&& 0xFFFFF000) ||| (flags &&& 0xFFF) := by
  unfold vmm_map_page
  unfold vmm_map_page at hs
  cases hg : get_page_table dir virt true pmm with
  | mk o rest =>
    obtain ⟨dir', pmm'⟩ := rest
    rw [hg] at hs
    cases o with
    | none => simp at hs
    | some pt =>
      refine ⟨{ entries := fun i => if i = PT_INDEX virt
          then (phys &&& 0xFFFFF000) ||| (flags &&& 0xFFF) else pt.entries i },
        ?_, ?_⟩
      · show (if PD_INDEX virt = PD_INDEX virt
            then some _ else dir'.tables (PD_INDEX virt)) = some _
        rw [if_pos rfl]
      · show (if PT_INDEX virt = PT_INDEX virt
            then (phys &&& 0xFFFFF000) ||| (flags &&& 0xFFF)
            else pt.entries (PT_INDEX virt)) = _
        rw [if_pos rfl]

/-! ## Claim C10: the stored leaf entry is exactly the masked combination -/

/-- Claim C10: whenever `vmm_map_page(dir, virt, phys, flags)` succeeds, the
leaf page-table entry it stores is exactly
`(phys & 0xFFFFF000) | (flags & 0xFFF)`, i.e. the frame bits of `phys` plus
the low 12 bits of `flags`: bits 12 and above of the caller's flags and
bits 11 and below of the caller's physical address are silently discarded,
never written to the entry. -/
theorem vmm_map_page_stores_masked (dir : page_directory) (virt phys flags : Nat)
    (pmm : PMMState)
    (hs : (vmm_map_page dir virt phys flags pmm).1 = true) :
    ∃ pt, (vmm_map_page dir virt phys flags pmm).2.1.tables (PD_INDEX virt) = some pt ∧
      pt.entries (PT_INDEX virt) = (phys &&& 0xFFFFF000) ||| (flags &&& 0xFFF) ∧
      pt.entries (PT_INDEX virt) = phys % U32 / 4096 * 4096 + flags % 4096 := by
  obtain ⟨pt, h1, h2⟩ := vmm_map_page_entry dir virt phys flags pmm hs
  refine ⟨pt, h1, h2, ?_⟩
  rw [h2, and_0xFFFFF000, and_0xFFF,
    aligned_lor_low (Nat.mul_mod_left _ _) (Nat.mod_lt _ (by norm_num))]
  congr 2
  have hU : U32 = 4096 * 1048576 := by norm_num [U32]
  rw [hU, Nat.mod_mul_right_div_self]

/-- Witness for C10 at concrete inputs: mapping `virt = 0x1000` to
`phys = 0x2345` with `flags = 0x1007` stores `0x2007`. -/
theorem vmm_map_page_stores_masked_witness :
    ∃ pt, (vmm_map_page vmm_dir_with_table0 0x1000 0x2345 0x1007
        pmm_small_free_state).2.1.tables (PD_INDEX 0x1000) = some pt ∧
      pt.entries (PT_INDEX 0x1000) = (0x2345 &&& 0xFFFFF000) ||| (0x1007 &&& 0xFFF) ∧
      pt.entries (PT_INDEX 0x1000) = 0x2345 % U32 / 4096 * 4096 + 0x1007 % 4096 :=
  vmm_map_page_stores_masked vmm_dir_with_table0 0x1000 0x2345 0x1007
    pmm_small_free_state (by decide)

/-! ## Claim C2: mapping round trip -/

/-- Counterexample to C2 as stated: with `flags = 0` (a legal "every flags
value" instance, lacking the present bit) the mapping call succeeds, but
`vmm_get_physical` then reports 0 — not `p + offset` — because it checks
the present bit of the stored entry. -/
theorem vmm_roundtrip_counterexample :
    (vmm_map_page vmm_dir_with_table0 0x1000 0x2000 0 pmm_small_free_state).1 = true ∧
    vmm_get_physical
      (vmm_map_page vmm_dir_with_table0 0x1000 0x2000 0 pmm_small_free_state).2.1
      0x1000 ≠ 0x2000 := by
  constructor
  · decide
  · decide

theorem aligned_add_offset_lt {v offset : Nat} (hv : v < U32) (hva : v % 4096 = 0)
    (hoff : offset < 4096) : v + offset < U32 := by
  have hU : U32 = 4294967296 := rfl
  omega

theorem vmm_get_physical_eq (dir : page_directory) (virt : Nat) (pt : page_table)
    (h : dir.tables (PD_INDEX virt) = some pt) :
    vmm_get_physical dir virt =
      if pt.entries (PT_INDEX virt) &&& PTE_PRESENT = 0 then 0
      else (pt.entries (PT_INDEX virt) &&& 0xFFFFF000) ||| (virt % U32 &&& 0xFFF) := by
  unfold vmm_get_physical
  rw [h]

theorem PD_INDEX_add_offset (v offset : Nat) (hv : v < U32) (hva : v % 4096 = 0)
    (hoff : offset < 4096) : PD_INDEX (v + offset) = PD_INDEX v := by
  unfold PD_INDEX
  rw [Nat.mod_eq_of_lt (aligned_add_offset_lt hv hva hoff), Nat.mod_eq_of_lt hv,
    Nat.shiftRight_eq_div_pow, Nat.shiftRight_eq_div_pow]
  have h22 : (2 : Nat) ^ 22 = 4096 * 1024 := by norm_num
  have hstep : (v + offset) / 4096 = v / 4096 := by omega
  rw [h22, ← Nat.div_div_eq_div_mul, ← Nat.div_div_eq_div_mul, hstep]

theorem PT_INDEX_add_offset (v offset : Nat) (hv : v < U32) (hva : v % 4096 = 0)
    (hoff : offset < 4096) : PT_INDEX (v + offset) = PT_INDEX v := by
  unfold PT_INDEX
  rw [Nat.mod_eq_of_lt (aligned_add_offset_lt hv hva hoff), Nat.mod_eq_of_lt hv,
    Nat.shiftRight_eq_div_pow, Nat.shiftRight_eq_div_pow]
  have h12 : (2 : Nat) ^ 12 = 4096 := by norm_num
  have hstep : (v + offset) / 4096 = v / 4096 := by omega
  rw [h12, hstep]

/-- Claim C2 (amended): for every page-aligned 32-bit virtual address `v`,
page-aligned 32-bit physical address `p`, and every flags value whose
present bit (bit 0) is set, a successful `vmm_map_page(dir, v, p, flags)`
followed by `vmm_get_physical(dir, v + offset)` returns `p + offset` for
every `offset < 4096`. -/
theorem vmm_map_roundtrip (dir : page_directory) (pmm : PMMState)
    (v p flags offset : Nat)
    (hv : v < U32) (hva : v % 4096 = 0)
    (hp : p < U32) (hpa : p % 4096 = 0)
    (hoff : offset < 4096)
    (hpresent : flags &&& PTE_PRESENT ≠ 0)
    (hs : (vmm_map_page dir v p flags pmm).1 = true) :
    vmm_get_physical (vmm_map_page dir v p flags pmm).2.1 (v + offset) =
      p + offset := by
  obtain ⟨pt, h1, h2⟩ := vmm_map_page_entry dir v p flags pmm hs
  have hU : U32 = 4294967296 := rfl
  have hand1 : ∀ x : Nat, x &&& 1 = x % 2 := by
    intro x
    have h12 : (1 : Nat) = 2 ^ 1 - 1 := by norm_num
    rw [h12, Nat.and_pow_two_sub_one_eq_mod]
  have hpte : pt.entries (PT_INDEX v) = p + flags % 4096 := by
    rw [h2, and_0xFFFFF000_of_lt hp, and_0xFFF]
    have hpdiv : p / 4096 * 4096 = p := by omega
    rw [hpdiv, aligned_lor_low hpa (Nat.mod_lt _ (by norm_num))]
  have hflags1 : flags % 2 = 1 := by
    unfold PTE_PRESENT at hpresent
    rw [hand1 flags] at hpresent
    omega
  rw [vmm_get_physical_eq _ _ pt
      (by rw [PD_INDEX_add_offset v offset hv hva hoff]; exact h1),
    PT_INDEX_add_offset v offset hv hva hoff, hpte]
  have hpte_lt : p + flags % 4096 < U32 := by omega
  have hpresent' : ¬ ((p + flags % 4096) &&& PTE_PRESENT = 0) := by
    unfold PTE_PRESENT
    rw [hand1 (p + flags % 4096)]
    omega
  rw [if_neg hpresent']
  have hhigh : (p + flags % 4096) &&& 0xFFFFF000 = p := by
    rw [and_0xFFFFF000_of_lt hpte_lt]
    have hdiv : (p + flags % 4096) / 4096 = p / 4096 := by omega
    rw [hdiv]
    omega
  have hlow : (v + offset) % U32 &&& 0xFFF = offset := by
    rw [Nat.mod_eq_of_lt (aligned_add_offset_lt hv hva hoff), and_0xFFF]
    omega
  rw [hhigh, hlow, aligned_lor_low hpa hoff]

/-- Witness for amended C2 at concrete inputs: map `v = 0x1000` to
`p = 0x2000` with present+writable flags, then read back `v + 5`. -/
theorem vmm_map_roundtrip_witness :
    vmm_get_physical
      (vmm_map_page vmm_empty_dir 0x1000 0x2000 3 pmm_small_free_state).2.1
      (0x1000 + 5) = 0x2000 + 5 :=
  vmm_map_roundtrip vmm_empty_dir pmm_small_free_state 0x1000 0x2000 3 5
    (by decide) (by decide) (by decide) (by decide) (by decide) (by decide)
    (by decide)

/-! ## Free-frame counting -/

theorem count_free_below_congr_lt (s1 s2 : PMMState) :
    ∀ n, (∀ q, q < n → bitmap_test q s1 = bitmap_test q s2) →
      count_free_below s1 n = count_free_below s2 n := by
  intro n
  induction n with
  | zero => intro _; rfl
  | succ n ih =>
    intro h
    rw [count_free_below, count_free_below, ih (fun q hq => h q (by omega)),
      h n (by omega)]

theorem count_free_below_all_used (s : PMMState) :
    ∀ n, (∀ q, q < n → bitmap_test q s = true) → count_free_below s n = 0 := by
  intro n
  induction n with
  | zero => intro _; rfl
  | succ n ih =>
    intro h
    rw [count_free_below, ih (fun q hq => h q (by omega)), h n (by omega)]
    simp

theorem count_free_below_set (s : PMMState) (p : Nat)
    (hrange : p / 8 < PMM_BITMAP_SIZE) (hfree : bitmap_test p s = false) :
    ∀ n, p < n → count_free_below (bitmap_set p s) n + 1 = count_free_below s n := by
  intro n
  induction n with
  | zero => intro hpn; omega
  | succ n ih =>
    intro hpn
    rw [count_free_below, count_free_below]
    by_cases hc : p = n
    · subst hc
      rw [count_free_below_congr_lt (bitmap_set p s) s p
          (fun q hq => bitmap_test_set_ne s (by omega)),
        bitmap_test_set_self s hrange, hfree]
      simp
    · rw [← ih (by omega), bitmap_test_set_ne s (show n ≠ p by omega)]
      ring

theorem pmm_find_free_aux_none_spec (s : PMMState) :
    ∀ fuel page, s.total_pages - page ≤ fuel →
      pmm_find_free_aux s fuel page = none →
      ∀ p, page ≤ p → p < s.total_pages → bitmap_test p s = true := by
  intro fuel
  induction fuel with
  | zero => intro page hf _ p h1 h2; omega
  | succ fuel ih =>
    intro page hf hnone p h1 h2
    rw [pmm_find_free_aux] at hnone
    by_cases hi : page < s.total_pages
    · rw [if_pos hi] at hnone
      by_cases ht : bitmap_test page s = false
      · rw [if_pos ht] at hnone
        exact absurd hnone (by simp)
      · rw [if_neg ht] at hnone
        rcases Nat.eq_or_lt_of_le h1 with heq | hlt
        · rw [← heq]
          cases hb : bitmap_test page s
          · exact absurd hb ht
          · rfl
        · exact ih (page + 1) (by omega) hnone p (by omega) h2
    · omega

theorem pmm_alloc_some_of_free (s : PMMState) (h : 1 ≤ pmm_free_count s) :
    ∃ p, pmm_find_free s 0 = some p := by
  cases hf : pmm_find_free s 0 with
  | some p => exact ⟨p, rfl⟩
  | none =>
    have hall := pmm_find_free_aux_none_spec s (s.total_pages - 0) 0
      (Nat.le_refl _) hf
    have h0 : pmm_free_count s = 0 :=
      count_free_below_all_used s s.total_pages
        (fun q hq => hall q (Nat.zero_le _) hq)
    unfold pmm_free_count at h0
    unfold pmm_free_count at h
    omega

theorem pmm_free_count_after_alloc (s : PMMState) (p : Nat)
    (hf : pmm_find_free s 0 = some p) :
    pmm_free_count (pmm_alloc_page s).2 + 1 = pmm_free_count s := by
  obtain ⟨-, hlt, hfree, -⟩ := pmm_find_free_spec hf
  have hrange := bitmap_test_false_in_range hfree
  unfold pmm_alloc_page
  rw [hf]
  show pmm_free_count { bitmap_set p s with used_pages := _ } + 1 = _
  unfold pmm_free_count
  rw [total_pages_used_irrel, bitmap_set_total_pages,
    count_free_below_congr_lt _ (bitmap_set p s) s.total_pages
      (fun q _ => bitmap_test_used_irrel q _ (bitmap_set p s)),
    count_free_below_set s p hrange hfree s.total_pages hlt]

/-! ## Small-address page-structure indices -/

theorem PD_INDEX_small (v : Nat) (h : v < 0x400000) : PD_INDEX v = 0 := by
  unfold PD_INDEX
  have hU : v % U32 = v := Nat.mod_eq_of_lt (by unfold U32; omega)
  rw [hU, Nat.shiftRight_eq_div_pow, Nat.div_eq_of_lt (by norm_num at h ⊢; omega),
    Nat.zero_and]

theorem PT_INDEX_small (v : Nat) (h : v < 0x400000) : PT_INDEX v = v / 4096 := by
  unfold PT_INDEX
  have hU : v % U32 = v := Nat.mod_eq_of_lt (by unfold U32; omega)
  rw [hU, Nat.shiftRight_eq_div_pow, and_0x3FF,
    show (2 : Nat) ^ 12 = 4096 by norm_num, Nat.mod_eq_of_lt (by omega)]

/-! ## vmm_map_page on an existing or freshly created table -/

theorem vmm_map_page_existing (dir : page_directory) (virt phys flags : Nat)
    (pmm : PMMState) (pt : page_table)
    (h : dir.tables (PD_INDEX virt) = some pt) :
    (vmm_map_page dir virt phys flags pmm).1 = true ∧
    (vmm_map_page dir virt phys flags pmm).2.2 = pmm ∧
    ∀ i, (vmm_map_page dir virt phys flags pmm).2.1.tables i =
      if i = PD_INDEX virt
      then some { entries := fun j => if j = PT_INDEX virt
          then (phys &&& 0xFFFFF000) ||| (flags &&& 0xFFF) else pt.entries j }
      else dir.tables i := by
  unfold vmm_map_page get_page_table
  rw [h]
  exact ⟨rfl, rfl, fun i => rfl⟩

theorem vmm_map_page_create (dir : page_directory) (virt phys flags : Nat)
    (pmm : PMMState) (f : Nat)
    (hnone : dir.tables (PD_INDEX virt) = none)
    (hf : pmm_find_free pmm 0 = some f) :
    (vmm_map_page dir virt phys flags pmm).1 = true ∧
    (vmm_map_page dir virt phys flags pmm).2.2 =
      { bitmap_set f pmm with used_pages := (pmm.used_pages + 1) % U32 } ∧
    ∀ i, (vmm_map_page dir virt phys flags pmm).2.1.tables i =
      if i = PD_INDEX virt
      then some { entries := fun j => if j = PT_INDEX virt
          then (phys &&& 0xFFFFF000) ||| (flags &&& 0xFFF) else 0 }
      else dir.tables i := by
  unfold vmm_map_page get_page_table pmm_alloc_page
  rw [hnone, hf]
  refine ⟨rfl, rfl, fun i => ?_⟩
  show (if i = PD_INDEX virt
      then some { entries := fun j => if j = PT_INDEX virt
          then (phys &&& 0xFFFFF000) ||| (flags &&& 0xFFF)
          else ({ entries := fun _ => 0 } : page_table).entries j }
      else (if i = PD_INDEX virt
        then some ({ entries := fun _ => 0 } : page_table)
        else dir.tables i)) = _
  by_cases hi : i = PD_INDEX virt
  · rw [if_pos hi, if_pos hi]
  · rw [if_neg hi, if_neg hi, if_neg hi]

theorem vmm_id_map_loop_aux_step (fuel : Nat) (dir : page_directory)
    (pmm : PMMState) (virt endv flags : Nat) (h : virt < endv) :
    vmm_id_map_loop_aux (fuel + 1) dir pmm virt endv flags =
      vmm_id_map_loop_aux fuel (vmm_map_page dir virt virt flags pmm).2.1
        (vmm_map_page dir virt virt flags pmm).2.2 (virt + PAGE_SIZE) endv flags := by
  rw [vmm_id_map_loop_aux, if_pos h]

/-! ## The identity-map loop of vmm_init -/

theorem vmm_id_map_loop_preserve :
    ∀ fuel (dir : page_directory) (pmm : PMMState) (virt endv flags : Nat)
      (pt : page_table) (j : Nat),
      endv ≤ 0x400000 → virt % 4096 = 0 →
      dir.tables 0 = some pt →
      (j * 4096 < virt ∨ endv ≤ j * 4096) →
      ∃ pt', (vmm_id_map_loop_aux fuel dir pmm virt endv flags).1.tables 0 = some pt' ∧
        pt'.entries j = pt.entries j := by
  intro fuel
  induction fuel with
  | zero => intro dir pmm virt endv flags pt j _ _ htab _; exact ⟨pt, htab, rfl⟩
  | succ fuel ih =>
    intro dir pmm virt endv flags pt j hend hva htab hj
    by_cases hlt : virt < endv
    · rw [vmm_id_map_loop_aux_step fuel dir pmm virt endv flags hlt]
      have hpd : PD_INDEX virt = 0 := PD_INDEX_small virt (by omega)
      obtain ⟨-, -, htabs⟩ := vmm_map_page_existing dir virt virt flags pmm pt
        (by rw [hpd]; exact htab)
      have htab1 : (vmm_map_page dir virt virt flags pmm).2.1.tables 0 =
          some { entries := fun k => if k = PT_INDEX virt
            then (virt &&& 0xFFFFF000) ||| (flags &&& 0xFFF) else pt.entries k } := by
        rw [htabs 0, hpd, if_pos rfl]
      have hptidx : PT_INDEX virt = virt / 4096 := PT_INDEX_small virt (by omega)
      have hjne : j ≠ PT_INDEX virt := by
        rw [hptidx]
        omega
      obtain ⟨pt', h1, h2⟩ := ih _ _ (virt + PAGE_SIZE) endv flags _ j hend
        (by unfold PAGE_SIZE; omega) htab1 (by unfold PAGE_SIZE; omega)
      refine ⟨pt', h1, ?_⟩
      rw [h2]
      show (if j = PT_INDEX virt then _ else pt.entries j) = pt.entries j
      rw [if_neg hjne]
    · rw [vmm_id_map_loop_aux, if_neg hlt]
      exact ⟨pt, htab, rfl⟩

theorem vmm_id_map_loop_maps :
    ∀ fuel (dir : page_directory) (pmm : PMMState) (virt endv flags : Nat)
      (pt : page_table) (a : Nat),
      endv ≤ 0x400000 → virt % 4096 = 0 → a % 4096 = 0 →
      dir.tables 0 = some pt →
      virt ≤ a → a < endv → a < virt + fuel →
      ∃ pt', (vmm_id_map_loop_aux fuel dir pmm virt endv flags).1.tables 0 = some pt' ∧
        pt'.entries (a / 4096) = (a &&& 0xFFFFF000) ||| (flags &&& 0xFFF) := by
  intro fuel
  induction fuel with
  | zero => intro dir pmm virt endv flags pt a _ _ _ _ h5 _ h7; omega
  | succ fuel ih =>
    intro dir pmm virt endv flags pt a hend hva haa htab h5 h6 h7
    have hlt : virt < endv := by omega
    rw [vmm_id_map_loop_aux_step fuel dir pmm virt endv flags hlt]
    have hpd : PD_INDEX virt = 0 := PD_INDEX_small virt (by omega)
    obtain ⟨-, -, htabs⟩ := vmm_map_page_existing dir virt virt flags pmm pt
      (by rw [hpd]; exact htab)
    have htab1 : (vmm_map_page dir virt virt flags pmm).2.1.tables 0 =
        some { entries := fun k => if k = PT_INDEX virt
          then (virt &&& 0xFFFFF000) ||| (flags &&& 0xFFF) else pt.entries k } := by
      rw [htabs 0, hpd, if_pos rfl]
    by_cases hc : a = virt
    · subst hc
      obtain ⟨pt', h1, h2⟩ := vmm_id_map_loop_preserve fuel _ _ (a + PAGE_SIZE)
        endv flags _ (a / 4096) hend (by unfold PAGE_SIZE; omega) htab1
        (by unfold PAGE_SIZE; omega)
      refine ⟨pt', h1, ?_⟩
      rw [h2]
      show (if a / 4096 = PT_INDEX a then _ else pt.entries (a / 4096)) = _
      rw [PT_INDEX_small a (by omega), if_pos rfl]
    · obtain ⟨pt', h1, h2⟩ := ih _ _ (virt + PAGE_SIZE) endv flags _ a hend
        (by unfold PAGE_SIZE; omega) haa htab1 (by unfold PAGE_SIZE; omega) h6
        (by unfold PAGE_SIZE; omega)
      exact ⟨pt', h1, h2⟩

/-! ## Claim C5: identity map after vmm_init -/

/-- Claim C5: after `vmm_init` on a PMM with at least two free frames (one
for the page directory, one for the single page table covering the first
4 MiB), for every virtual address `v` in `[0, 0x400000)`,
`vmm_get_physical(current_directory, v) = v`. -/
theorem vmm_init_identity_map (pmm : PMMState) (hfree : 2 ≤ pmm_free_count pmm) :
    ∃ r, vmm_init pmm = some r ∧
      ∀ v, v < 0x400000 → vmm_get_physical r.1 v = v := by
  obtain ⟨f1, hf1⟩ := pmm_alloc_some_of_free pmm (by omega)
  have halloc : pmm_alloc_page pmm =
      (some (f1 * PMM_PAGE_SIZE % U32),
        { bitmap_set f1 pmm with used_pages := (pmm.used_pages + 1) % U32 }) := by
    unfold pmm_alloc_page
    rw [hf1]
  set pmm1 := { bitmap_set f1 pmm with used_pages := (pmm.used_pages + 1) % U32 }
    with hpmm1
  have hcount : pmm_free_count pmm1 + 1 = pmm_free_count pmm := by
    have h := pmm_free_count_after_alloc pmm f1 hf1
    rw [halloc] at h
    exact h
  obtain ⟨f2, hf2⟩ := pmm_alloc_some_of_free pmm1 (by omega)
  unfold vmm_init
  rw [halloc]
  refine ⟨_, rfl, ?_⟩
  have hregion : vmm_identity_map_region
      { entries := fun _ => 0, tables := fun _ => none } 0 0x400000
      (PTE_PRESENT ||| PTE_WRITABLE) pmm1 =
      vmm_id_map_loop_aux 0x400000 { entries := fun _ => 0, tables := fun _ => none }
        pmm1 0 0x400000 (PTE_PRESENT ||| PTE_WRITABLE) := rfl
  have hloop1 : vmm_id_map_loop_aux 0x400000
      { entries := fun _ => 0, tables := fun _ => none } pmm1 0 0x400000
      (PTE_PRESENT ||| PTE_WRITABLE) =
      vmm_id_map_loop_aux 0x3FFFFF
        (vmm_map_page { entries := fun _ => 0, tables := fun _ => none } 0 0
          (PTE_PRESENT ||| PTE_WRITABLE) pmm1).2.1
        (vmm_map_page { entries := fun _ => 0, tables := fun _ => none } 0 0
          (PTE_PRESENT ||| PTE_WRITABLE) pmm1).2.2
        (0 + PAGE_SIZE) 0x400000 (PTE_PRESENT ||| PTE_WRITABLE) := by
    rw [show (0x400000 : Nat) = 0x3FFFFF + 1 from by norm_num]
    exact vmm_id_map_loop_aux_step 0x3FFFFF _ pmm1 0 _ _ (by norm_num)
  obtain ⟨-, -, htabs⟩ := vmm_map_page_create
    { entries := fun _ => 0, tables := fun _ => none } 0 0
    (PTE_PRESENT ||| PTE_WRITABLE) pmm1 f2 rfl hf2
  have htab1 : (vmm_map_page { entries := fun _ => 0, tables := fun _ => none } 0 0
      (PTE_PRESENT ||| PTE_WRITABLE) pmm1).2.1.tables 0 =
      some { entries := fun j => if j = PT_INDEX 0
        then (0 &&& 0xFFFFF000) ||| ((PTE_PRESENT ||| PTE_WRITABLE) &&& 0xFFF)
        else 0 } := by
    rw [htabs 0, PD_INDEX_small 0 (by norm_num), if_pos rfl]
  intro v hv
  have hfinal : ∃ pt', (vmm_id_map_loop_aux 0x3FFFFF
      (vmm_map_page { entries := fun _ => 0, tables := fun _ => none } 0 0
        (PTE_PRESENT ||| PTE_WRITABLE) pmm1).2.1
      (vmm_map_page { entries := fun _ => 0, tables := fun _ => none } 0 0
        (PTE_PRESENT ||| PTE_WRITABLE) pmm1).2.2
      (0 + PAGE_SIZE) 0x400000 (PTE_PRESENT ||| PTE_WRITABLE)).1.tables 0 =
        some pt' ∧
      pt'.entries (v / 4096) =
        (v / 4096 * 4096 &&& 0xFFFFF000) |||
          ((PTE_PRESENT ||| PTE_WRITABLE) &&& 0xFFF) := by
    by_cases hcase : v < 4096
    · obtain ⟨pt', h1, h2⟩ := vmm_id_map_loop_preserve 0x3FFFFF _ _ (0 + PAGE_SIZE)
        0x400000 (PTE_PRESENT ||| PTE_WRITABLE) _ (v / 4096) (by norm_num)
        (by unfold PAGE_SIZE; omega) htab1 (by unfold PAGE_SIZE; omega)
      refine ⟨pt', h1, ?_⟩
      rw [h2]
      show (if v / 4096 = PT_INDEX 0
          then (0 &&& 0xFFFFF000) ||| ((PTE_PRESENT ||| PTE_WRITABLE) &&& 0xFFF)
          else 0) = _
      rw [PT_INDEX_small 0 (by norm_num)]
      have hz : v / 4096 = 0 := by omega
      rw [hz, if_pos rfl]
    · obtain ⟨pt', h1, h2⟩ := vmm_id_map_loop_maps 0x3FFFFF _ _ (0 + PAGE_SIZE)
        0x400000 (PTE_PRESENT ||| PTE_WRITABLE) _ (v / 4096 * 4096) (by norm_num)
        (by unfold PAGE_SIZE; omega) (by omega) htab1 (by unfold PAGE_SIZE; omega)
        (by omega) (by unfold PAGE_SIZE; omega)
      have hdiv : v / 4096 * 4096 / 4096 = v / 4096 := by omega
      rw [hdiv] at h2
      exact ⟨pt', h1, h2⟩
  obtain ⟨pt', h1, h2⟩ := hfinal
  rw [hregion, hloop1]
  rw [vmm_get_physical_eq _ v pt' (by rw [PD_INDEX_small v hv]; exact h1)]
  rw [PT_INDEX_small v hv, h2]
  have hU : U32 = 4294967296 := rfl
  have haligned : v / 4096 * 4096 &&& 0xFFFFF000 = v / 4096 * 4096 := by
    rw [and_0xFFFFF000_of_lt (by omega)]
    omega
  have hFfff : (PTE_PRESENT ||| PTE_WRITABLE) &&& 0xFFF = 3 := by decide
  rw [haligned, hFfff,
    aligned_lor_low (Nat.mul_mod_left _ _) (by norm_num : (3:Nat) < 4096)]
  have hand1 : (v / 4096 * 4096 + 3) &&& 1 = (v / 4096 * 4096 + 3) % 2 := by
    rw [show (1 : Nat) = 2 ^ 1 - 1 from by norm_num,
      Nat.and_pow_two_sub_one_eq_mod]
  rw [if_neg (by unfold PTE_PRESENT; rw [hand1]; omega)]
  have hhigh : (v / 4096 * 4096 + 3) &&& 0xFFFFF000 = v / 4096 * 4096 := by
    rw [and_0xFFFFF000_of_lt (by omega)]
    omega
  have hlow : v % U32 &&& 0xFFF = v % 4096 := by
    rw [Nat.mod_eq_of_lt (by omega), and_0xFFF]
  rw [hhigh, hlow,
    aligned_lor_low (Nat.mul_mod_left _ _) (by omega : v % 4096 < 4096)]
  omega

/-- Witness for C5: on a concrete PMM with four free frames, `vmm_init`
succeeds and the current directory translates `0x123456` to itself. -/
theorem vmm_init_identity_map_witness :
    (vmm_init pmm_small_free_state).map
      (fun r => vmm_get_physical r.1 0x123456) = some 0x123456 := by
  obtain ⟨r, h1, h2⟩ := vmm_init_identity_map pmm_small_free_state (by decide)
  rw [h1]
  show some (vmm_get_physical r.1 0x123456) = some 0x123456
  rw [h2 0x123456 (by norm_num)]

end OpenOS
